import Mathlib

/-!
Verification of the pace-index calculator core against its source.

The repository has two parts:
* `src/makeData.js` — two table-builder scripts (a "VDOT" variant and a
  "Pace Overview" variant) that parse spreadsheet cells into rows.
* `src/unnamed/part_000` — three near-duplicate React pages; the algorithmic
  content is the row-resolution logic (`findClosestRow`,
  `findClosestRowByTime`, `findRowByPI`, `pickInterpolatedRow`, `blendRow`)
  and the derived-pace formulas.

JavaScript numbers are modelled by `JVal α` over a linear ordered field `α`:
`null` (JSON null / absent), `nan` (NaN), `inf` (signed infinity) and finite
numbers.  Arithmetic follows JS coercion rules: `null` coerces to `0`, `NaN`
propagates, comparisons involving `NaN` are false.  The float constant
`Math.pow(2, 1.06)` is threaded through as an explicit parameter `pw : α`;
the section on the Riegel projection instantiates it with the exact real
`(2 : ℝ) ^ (1.06 : ℝ)`.  Strings are modelled as `List Char`.
-/

/-- A JavaScript numeric value as it occurs in this program: JSON `null`,
`NaN`, a signed infinity, or a finite number. -/
inductive JVal (α : Type) where
  | null : JVal α
  | nan : JVal α
  | inf : Bool → JVal α
  | num : α → JVal α
deriving DecidableEq, Repr

namespace JVal

variable {α : Type} [LinearOrderedField α]

/-- JS `Number` coercion as it applies inside arithmetic: `null` becomes `0`,
everything else is unchanged. -/
def coerce : JVal α → JVal α
  | null => num 0
  | v => v

/-- JS `Number.isFinite`: true only for actual finite numbers (false for
`null`, `NaN` and infinities). -/
def isFinite : JVal α → Bool
  | num _ => true
  | _ => false

/-- JS addition (after `null → 0` coercion; `NaN` propagates,
`∞ + (−∞) = NaN`). -/
def jadd (a b : JVal α) : JVal α :=
  match a.coerce, b.coerce with
  | nan, _ => nan
  | _, nan => nan
  | inf s, inf t => if s = t then inf s else nan
  | inf s, num _ => inf s
  | num _, inf t => inf t
  | num x, num y => num (x + y)
  | _, _ => nan

/-- JS unary negation. -/
def jneg (a : JVal α) : JVal α :=
  match a.coerce with
  | nan => nan
  | inf s => inf (!s)
  | num x => num (-x)
  | null => num 0

/-- JS subtraction. -/
def jsub (a b : JVal α) : JVal α := jadd a (jneg b)

/-- JS multiplication (`∞ * 0 = NaN`, sign rules for infinities). -/
def jmul (a b : JVal α) : JVal α :=
  match a.coerce, b.coerce with
  | nan, _ => nan
  | _, nan => nan
  | inf s, inf t => inf (s = t)
  | inf s, num y => if y = 0 then nan else inf (s = decide (0 < y))
  | num x, inf t => if x = 0 then nan else inf (t = decide (0 < x))
  | num x, num y => num (x * y)
  | _, _ => nan

/-- JS division (`0/0 = NaN`, `x/0 = ±∞` for `x ≠ 0`, `∞/∞ = NaN`,
`x/∞ = 0`).  The sign of `−0` is not modelled; all zeros are `+0`, which is
the only zero arising in this program. -/
def jdiv (a b : JVal α) : JVal α :=
  match a.coerce, b.coerce with
  | nan, _ => nan
  | _, nan => nan
  | inf _, inf _ => nan
  | inf s, num y => if y < 0 then inf (!s) else inf s
  | num _, inf _ => num 0
  | num x, num y =>
      if y = 0 then (if x = 0 then nan else inf (decide (0 < x))) else num (x / y)
  | _, _ => nan

/-- JS `Math.abs`. -/
def jabs (a : JVal α) : JVal α :=
  match a.coerce with
  | nan => nan
  | inf _ => inf true
  | num x => num |x|
  | null => num 0

/-- JS `Math.round` (round half toward `+∞`, i.e. `⌊x + 1/2⌋`); `NaN` and
infinities pass through, `null` coerces to `0`. -/
def jround [FloorRing α] (a : JVal α) : JVal α :=
  match a.coerce with
  | nan => nan
  | inf s => inf s
  | num x => num ((⌊x + 1 / 2⌋ : ℤ) : α)
  | null => num 0

/-- JS `<` on numbers: any comparison involving `NaN` is false. -/
def jlt (a b : JVal α) : Bool :=
  match a.coerce, b.coerce with
  | num x, num y => decide (x < y)
  | num _, inf t => t
  | inf s, num _ => !s
  | inf s, inf t => !s && t
  | _, _ => false

/-- JS `<=` on numbers: any comparison involving `NaN` is false. -/
def jle (a b : JVal α) : Bool :=
  match a.coerce, b.coerce with
  | num x, num y => decide (x ≤ y)
  | num _, inf t => t
  | inf s, num _ => !s
  | inf s, inf t => !s || t
  | _, _ => false

/-- A value as it can actually be stored in the generated table: JSON `null`
or a finite number (never `NaN` or an infinity). -/
def isStored : JVal α → Prop
  | null => True
  | num _ => True
  | _ => False

end JVal

/-- The race distances selectable in the UI (`InputDistance` in the source). -/
inductive InputDistance where
  | d800 | mile | twoMile | k5 | k10 | half | marathon
deriving DecidableEq, Repr

/-- The `pred` record of a table row: predicted total race times. -/
structure PredT (α : Type) where
  m800 : JVal α
  mile : JVal α
  twoMile : JVal α
  k5 : JVal α
  half : JVal α
  marathon : JVal α
deriving DecidableEq, Repr

/-- The `pace` record of a table row: race paces per mile. -/
structure PaceT (α : Type) where
  mile : JVal α
  twoMile : JVal α
  k5 : JVal α
deriving DecidableEq, Repr

/-- The `cv` record (critical-velocity repeats) of the basic row shape. -/
structure CvT (α : Type) where
  m100 : JVal α
  m400 : JVal α
  m800 : JVal α
  m1000 : JVal α
  m1200 : JVal α
deriving DecidableEq, Repr

/-- The `speed2m` record (2-mile pace repeats). -/
structure Speed2mT (α : Type) where
  m100 : JVal α
  m200 : JVal α
  m300 : JVal α
  m400 : JVal α
  m600 : JVal α
deriving DecidableEq, Repr

/-- `PaceRow` as declared in the first and third page variants of
`src/unnamed/part_000` (the presentation-only `label` string is omitted). -/
structure PaceRow (α : Type) where
  id : α
  paceIndex : JVal α
  pred : PredT α
  pace : PaceT α
  cv : CvT α
  speed2m : Speed2mT α
deriving DecidableEq, Repr

/-- The `cv` record of the extended (second-variant) row shape, which also
carries a 1600 m repeat. -/
structure CvXT (α : Type) where
  m100 : JVal α
  m400 : JVal α
  m800 : JVal α
  m1000 : JVal α
  m1200 : JVal α
  m1600 : JVal α
deriving DecidableEq, Repr

/-- The `fivekRepeats` record of the extended row shape. -/
structure FivekT (α : Type) where
  m1600 : JVal α
  m1200 : JVal α
  m1000 : JVal α
  m800 : JVal α
  m400 : JVal α
  m100 : JVal α
deriving DecidableEq, Repr

/-- `PaceRow` as declared in the second page variant of
`src/unnamed/part_000` (lines 456-504): adds the optional `thresholdPace`
and `fivekRepeats` fields and a 1600 m critical-velocity repeat. -/
structure PaceRowX (α : Type) where
  id : α
  paceIndex : JVal α
  pred : PredT α
  pace : PaceT α
  thresholdPace : JVal α
  fivekRepeats : Option (FivekT α)
  cv : CvXT α
  speed2m : Speed2mT α
deriving DecidableEq, Repr

variable {α : Type} [LinearOrderedField α]

/-- `predict10kFrom5kSeconds` (three identical copies in the source, lines
48-52, 547-550 and 1018-1020): `pred5kSec * Math.pow(2, 1.06)`.  The float
constant `Math.pow(2, 1.06)` is the parameter `pw`. -/
def predict10kFrom5kSeconds (pw : α) (pred5kSec : JVal α) : JVal α :=
  JVal.jmul pred5kSec (JVal.num pw)

/-- `getPredictionSeconds` (first page variant, lines 54-71): the raw stored
prediction for the distance, with 10k synthesized via the Riegel projection. -/
def getPredictionSeconds (pw : α) (row : PaceRow α) : InputDistance → JVal α
  | .d800 => row.pred.m800
  | .mile => row.pred.mile
  | .twoMile => row.pred.twoMile
  | .k5 => row.pred.k5
  | .k10 => predict10kFrom5kSeconds pw row.pred.k5
  | .half => row.pred.half
  | .marathon => row.pred.marathon

/-- `getPredictionSeconds` (second page variant, lines 552-569), on the
extended row shape. -/
def getPredictionSecondsX (pw : α) (r : PaceRowX α) : InputDistance → JVal α
  | .d800 => r.pred.m800
  | .mile => r.pred.mile
  | .twoMile => r.pred.twoMile
  | .k5 => r.pred.k5
  | .k10 => predict10kFrom5kSeconds pw r.pred.k5
  | .half => r.pred.half
  | .marathon => r.pred.marathon

/-- `getPredSeconds` (third page variant, lines 1027-1044); identical body to
the first variant. -/
def getPredSeconds (pw : α) (r : PaceRow α) : InputDistance → JVal α
  | .d800 => r.pred.m800
  | .mile => r.pred.mile
  | .twoMile => r.pred.twoMile
  | .k5 => r.pred.k5
  | .k10 => predict10kFrom5kSeconds pw r.pred.k5
  | .half => r.pred.half
  | .marathon => r.pred.marathon

/-- The loop of `findClosestRow` (lines 76-84): for each row, skip it unless
its prediction is finite, otherwise keep the row with the strictly smaller
absolute difference (so the first row attaining the minimum wins). -/
def closestGo (pw : α) (d : InputDistance) (inputSeconds : α) :
    List (PaceRow α) → PaceRow α → JVal α → PaceRow α
  | [], best, _ => best
  | r :: rest, best, bestDiff =>
      let t := getPredictionSeconds pw r d
      if t.isFinite then
        let diff := JVal.jabs (JVal.jsub t (JVal.num inputSeconds))
        if JVal.jlt diff bestDiff then closestGo pw d inputSeconds rest r diff
        else closestGo pw d inputSeconds rest best bestDiff
      else closestGo pw d inputSeconds rest best bestDiff

/-- `findClosestRow` (first page variant, lines 73-86).  On an empty table
the source dereferences `undefined` (a crash), modelled as `none`. -/
def findClosestRow (pw : α) (rows : List (PaceRow α)) (d : InputDistance)
    (inputSeconds : α) : Option (PaceRow α) :=
  match rows with
  | [] => none
  | r0 :: _ =>
      let bestDiff :=
        JVal.jabs (JVal.jsub (getPredictionSeconds pw r0 d) (JVal.num inputSeconds))
      some (closestGo pw d inputSeconds rows r0 bestDiff)

/-- The loop of `findClosestRowByTime` (lines 575-582): like `findClosestRow`
but without the finiteness check (a `NaN` difference never updates because
`NaN < x` is false). -/
def closestGoX (pw : α) (d : InputDistance) (inputSeconds : α) :
    List (PaceRowX α) → PaceRowX α → JVal α → PaceRowX α
  | [], best, _ => best
  | r :: rest, best, bestDiff =>
      let diff :=
        JVal.jabs (JVal.jsub (getPredictionSecondsX pw r d) (JVal.num inputSeconds))
      if JVal.jlt diff bestDiff then closestGoX pw d inputSeconds rest r diff
      else closestGoX pw d inputSeconds rest best bestDiff

/-- `findClosestRowByTime` (second page variant, lines 571-584). -/
def findClosestRowByTime (pw : α) (rows : List (PaceRowX α)) (d : InputDistance)
    (inputSeconds : α) : Option (PaceRowX α) :=
  match rows with
  | [] => none
  | r0 :: _ =>
      let bestDiff :=
        JVal.jabs (JVal.jsub (getPredictionSecondsX pw r0 d) (JVal.num inputSeconds))
      some (closestGoX pw d inputSeconds rows r0 bestDiff)

/-- `rows.find((r) => r.paceIndex === pi)` in `findRowByPI` (line 588):
first row whose `paceIndex` strictly equals the query. -/
def findExact (pi : α) : List (PaceRowX α) → Option (PaceRowX α)
  | [] => none
  | r :: rest => if r.paceIndex = JVal.num pi then some r else findExact pi rest

/-- The nearest-PI loop of `findRowByPI` (lines 594-600). -/
def piGo (pi : α) : List (PaceRowX α) → PaceRowX α → JVal α → PaceRowX α
  | [], best, _ => best
  | r :: rest, best, bestDiff =>
      let diff := JVal.jabs (JVal.jsub r.paceIndex (JVal.num pi))
      if JVal.jlt diff bestDiff then piGo pi rest r diff
      else piGo pi rest best bestDiff

/-- `findRowByPI` (second page variant, lines 586-602): exact match first,
otherwise nearest pace index.  On an empty table the source dereferences
`undefined` (crash), modelled as `none`. -/
def findRowByPI (rows : List (PaceRowX α)) (pi : α) : Option (PaceRowX α) :=
  match findExact pi rows with
  | some r => some r
  | none =>
      match rows with
      | [] => none
      | r0 :: _ =>
          let bestDiff := JVal.jabs (JVal.jsub r0.paceIndex (JVal.num pi))
          some (piGo pi rows r0 bestDiff)

/-- `lerp` (line 1046): `a + (b - a) * t`, over JS values. -/
def lerpJ (a b t : JVal α) : JVal α :=
  JVal.jadd a (JVal.jmul (JVal.jsub b a) t)

/-- `blendRow` (third page variant, lines 1050-1084): every numeric field is
independently `Math.round(lerp(a.f, b.f, t))`; the result carries the
sentinel `id = -1` (its `label` is presentation-only and omitted here). -/
def blendRow [FloorRing α] (a b : PaceRow α) (t : JVal α) : PaceRow α :=
  { id := -1
    paceIndex := JVal.jround (lerpJ a.paceIndex b.paceIndex t)
    pred :=
      { m800 := JVal.jround (lerpJ a.pred.m800 b.pred.m800 t)
        mile := JVal.jround (lerpJ a.pred.mile b.pred.mile t)
        twoMile := JVal.jround (lerpJ a.pred.twoMile b.pred.twoMile t)
        k5 := JVal.jround (lerpJ a.pred.k5 b.pred.k5 t)
        half := JVal.jround (lerpJ a.pred.half b.pred.half t)
        marathon := JVal.jround (lerpJ a.pred.marathon b.pred.marathon t) }
    pace :=
      { mile := JVal.jround (lerpJ a.pace.mile b.pace.mile t)
        twoMile := JVal.jround (lerpJ a.pace.twoMile b.pace.twoMile t)
        k5 := JVal.jround (lerpJ a.pace.k5 b.pace.k5 t) }
    cv :=
      { m100 := JVal.jround (lerpJ a.cv.m100 b.cv.m100 t)
        m400 := JVal.jround (lerpJ a.cv.m400 b.cv.m400 t)
        m800 := JVal.jround (lerpJ a.cv.m800 b.cv.m800 t)
        m1000 := JVal.jround (lerpJ a.cv.m1000 b.cv.m1000 t)
        m1200 := JVal.jround (lerpJ a.cv.m1200 b.cv.m1200 t) }
    speed2m :=
      { m100 := JVal.jround (lerpJ a.speed2m.m100 b.speed2m.m100 t)
        m200 := JVal.jround (lerpJ a.speed2m.m200 b.speed2m.m200 t)
        m300 := JVal.jround (lerpJ a.speed2m.m300 b.speed2m.m300 t)
        m400 := JVal.jround (lerpJ a.speed2m.m400 b.speed2m.m400 t)
        m600 := JVal.jround (lerpJ a.speed2m.m600 b.speed2m.m600 t) } }

/-- The division computing the interpolation parameter
`(inputSeconds - a.t) / (b.t - a.t)` on plain numbers, with JS semantics for
a zero denominator (`0/0 = NaN`, otherwise a signed infinity). -/
def jdivT (x y : α) : JVal α :=
  if y = 0 then (if x = 0 then JVal.nan else JVal.inf (decide (0 < x)))
  else JVal.num (x / y)

/-- Stable insertion used to model the JS stable ascending sort
`.sort((x, y) => x.t - y.t)` on the candidate list. -/
def insertByT (p : PaceRow α × α) : List (PaceRow α × α) → List (PaceRow α × α)
  | [] => [p]
  | q :: rest => if p.2 ≤ q.2 then p :: q :: rest else q :: insertByT p rest

/-- Stable ascending sort by predicted time (JS array sort is stable). -/
def sortByT : List (PaceRow α × α) → List (PaceRow α × α)
  | [] => []
  | p :: rest => insertByT p (sortByT rest)

/-- The bracket-searching loop of `pickInterpolatedRow` (lines 1110-1117). -/
def bracketScan [FloorRing α] (q : α) :
    List (PaceRow α × α) → Option (PaceRow α)
  | a :: b :: rest =>
      if a.2 ≤ q ∧ q ≤ b.2 then
        some (blendRow a.1 b.1 (jdivT (q - a.2) (b.2 - a.2)))
      else bracketScan q (b :: rest)
  | _ => none

/-- `pickInterpolatedRow` (third page variant, lines 1087-1120): map rows to
their prediction for the distance, keep the finite ones, sort ascending,
then extrapolate below the fastest pair / above the slowest pair, otherwise
interpolate inside the first bracketing pair (falling back to the fastest
row).  When the candidate list has fewer than two entries the source
dereferences `undefined` (crash), modelled as `none`. -/
def pickInterpolatedRow [FloorRing α] (pw : α) (rows : List (PaceRow α))
    (d : InputDistance) (inputSeconds : α) : Option (PaceRow α) :=
  let L := sortByT (rows.filterMap fun r =>
    match getPredSeconds pw r d with
    | JVal.num x => some (r, x)
    | _ => none)
  match L with
  | [] => none
  | [_] => none
  | a :: b :: rest =>
      if inputSeconds ≤ a.2 then
        some (blendRow a.1 b.1 (jdivT (inputSeconds - a.2) (b.2 - a.2)))
      else
        let bl := (a :: b :: rest).getLast (by simp)
        let al := (a :: b :: rest).dropLast.getLast (by cases rest <;> simp)
        if bl.2 ≤ inputSeconds then
          some (blendRow al.1 bl.1 (jdivT (inputSeconds - al.2) (bl.2 - al.2)))
        else
          match bracketScan inputSeconds (a :: b :: rest) with
          | some row => some row
          | none => some a.1

/-- `recoveryPace` (lines 89-91 and duplicates): 5k race pace plus 110 s. -/
def recoveryPace (pace5k : JVal α) : JVal α :=
  JVal.jadd pace5k (JVal.num 110)

/-- `steadyRange` (lines 92-94 and duplicates). -/
def steadyRange (pace5k : JVal α) : JVal α × JVal α :=
  (JVal.jadd pace5k (JVal.num 60), JVal.jadd pace5k (JVal.num 75))

/-- The threshold-split record produced by `thresholdSplits`. -/
structure ThrSplits (α : Type) where
  mile : JVal α
  m400 : JVal α
  m100 : JVal α
deriving DecidableEq, Repr

/-- `thresholdSplits` (first page variant, lines 95-97): the split times are
the mile pace divided by 4 and by 16. -/
def thresholdSplits (milePace : JVal α) : ThrSplits α :=
  { mile := milePace
    m400 := JVal.jdiv milePace (JVal.num 4)
    m100 := JVal.jdiv milePace (JVal.num 16) }

/-- `thresholdSplits` (third page variant, lines 1129-1131); identical body
to the first variant. -/
def thresholdSplits3 (milePace : JVal α) : ThrSplits α :=
  { mile := milePace
    m400 := JVal.jdiv milePace (JVal.num 4)
    m100 := JVal.jdiv milePace (JVal.num 16) }

/-- `splitFromMilePace` (second page variant, line 614):
`(secPerMile / 1609.344) * meters`. -/
def splitFromMilePace (secPerMile : JVal α) (meters : α) : JVal α :=
  JVal.jmul (JVal.jdiv secPerMile (JVal.num (1609344 / 1000))) (JVal.num meters)

/-- The threshold pace used by the second page variant (line 667):
`selected.thresholdPace ?? selected.pace.mile` (nullish coalescing: only
`null`/absent falls back to the mile race pace). -/
def thrPace (r : PaceRowX α) : JVal α :=
  match r.thresholdPace with
  | JVal.null => r.pace.mile
  | v => v

/-- `thr400` (line 668): `splitFromMilePace(thrPace, 400)`. -/
def thr400 (r : PaceRowX α) : JVal α := splitFromMilePace (thrPace r) 400

/-- `thr100` (line 669): `splitFromMilePace(thrPace, 100)`. -/
def thr100 (r : PaceRowX α) : JVal α := splitFromMilePace (thrPace r) 100

theorem JVal.isFinite_iff_num {v : JVal α} : v.isFinite = true ↔ ∃ x, v = JVal.num x := by
  cases v <;> simp [JVal.isFinite]

theorem JVal.jabs_jsub_num (x q : α) :
    JVal.jabs (JVal.jsub (JVal.num x) (JVal.num q)) = JVal.num |x - q| := by
  simp [JVal.jabs, JVal.jsub, JVal.jadd, JVal.jneg, JVal.coerce, sub_eq_add_neg]

theorem JVal.jlt_num_num (a b : α) :
    JVal.jlt (JVal.num a) (JVal.num b) = decide (a < b) := rfl

/-- The property claimed of nearest-match time resolution: the result is a
row of the table with a finite prediction whose absolute difference to the
query is minimal among rows with finite predictions, and every earlier row
with a finite prediction is strictly worse (ties go to the first row in
iteration order). -/
def NearestByTime (pw : α) (d : InputDistance) (q : α) (rows : List (PaceRow α))
    (res : PaceRow α) : Prop :=
  ∃ l1 l2 k, rows = l1 ++ res :: l2 ∧ getPredictionSeconds pw res d = JVal.num k ∧
    (∀ r ∈ l1, ∀ x, getPredictionSeconds pw r d = JVal.num x → |k - q| < |x - q|) ∧
    (∀ r ∈ rows, ∀ x, getPredictionSeconds pw r d = JVal.num x → |k - q| ≤ |x - q|)

theorem closestGo_spec (pw : α) (d : InputDistance) (q : α) :
    ∀ (l : List (PaceRow α)) (best : PaceRow α) (B : α),
      (closestGo pw d q l best (JVal.num B) = best ∧
        ∀ r ∈ l, ∀ x, getPredictionSeconds pw r d = JVal.num x → B ≤ |x - q|) ∨
      (∃ l1 l2 k,
        l = l1 ++ closestGo pw d q l best (JVal.num B) :: l2 ∧
        getPredictionSeconds pw (closestGo pw d q l best (JVal.num B)) d = JVal.num k ∧
        |k - q| < B ∧
        (∀ r ∈ l1, ∀ x, getPredictionSeconds pw r d = JVal.num x → |k - q| < |x - q|) ∧
        (∀ r ∈ l2, ∀ x, getPredictionSeconds pw r d = JVal.num x → |k - q| ≤ |x - q|)) := by
  intro l
  induction l with
  | nil => intro best B; left; exact ⟨rfl, by simp⟩
  | cons r rest ih =>
      intro best B
      rcases hkey : getPredictionSeconds pw r d with _ | _ | s | x
      case null =>
        have hstep : closestGo pw d q (r :: rest) best (JVal.num B)
            = closestGo pw d q rest best (JVal.num B) := by
          simp [closestGo, hkey, JVal.isFinite]
        rw [hstep]
        rcases ih best B with ⟨heq, hall⟩ | ⟨l1, l2, k, hdec, hk, hlt, h1, h2⟩
        · left
          refine ⟨heq, ?_⟩
          intro r' hr' x hx
          rcases List.mem_cons.mp hr' with h | h
          · subst h; rw [hkey] at hx; exact absurd hx (by simp)
          · exact hall r' h x hx
        · right
          refine ⟨r :: l1, l2, k, by rw [List.cons_append, <- hdec], hk, hlt, ?_, h2⟩
          intro r' hr' x hx
          rcases List.mem_cons.mp hr' with h | h
          · subst h; rw [hkey] at hx; exact absurd hx (by simp)
          · exact h1 r' h x hx
      case nan =>
        have hstep : closestGo pw d q (r :: rest) best (JVal.num B)
            = closestGo pw d q rest best (JVal.num B) := by
          simp [closestGo, hkey, JVal.isFinite]
        rw [hstep]
        rcases ih best B with ⟨heq, hall⟩ | ⟨l1, l2, k, hdec, hk, hlt, h1, h2⟩
        · left
          refine ⟨heq, ?_⟩
          intro r' hr' x hx
          rcases List.mem_cons.mp hr' with h | h
          · subst h; rw [hkey] at hx; exact absurd hx (by simp)
          · exact hall r' h x hx
        · right
          refine ⟨r :: l1, l2, k, by rw [List.cons_append, <- hdec], hk, hlt, ?_, h2⟩
          intro r' hr' x hx
          rcases List.mem_cons.mp hr' with h | h
          · subst h; rw [hkey] at hx; exact absurd hx (by simp)
          · exact h1 r' h x hx
      case inf =>
        have hstep : closestGo pw d q (r :: rest) best (JVal.num B)
            = closestGo pw d q rest best (JVal.num B) := by
          simp [closestGo, hkey, JVal.isFinite]
        rw [hstep]
        rcases ih best B with ⟨heq, hall⟩ | ⟨l1, l2, k, hdec, hk, hlt, h1, h2⟩
        · left
          refine ⟨heq, ?_⟩
          intro r' hr' x hx
          rcases List.mem_cons.mp hr' with h | h
          · subst h; rw [hkey] at hx; exact absurd hx (by simp)
          · exact hall r' h x hx
        · right
          refine ⟨r :: l1, l2, k, by rw [List.cons_append, <- hdec], hk, hlt, ?_, h2⟩
          intro r' hr' x hx
          rcases List.mem_cons.mp hr' with h | h
          · subst h; rw [hkey] at hx; exact absurd hx (by simp)
          · exact h1 r' h x hx
      case num =>
        by_cases hcmp : |x - q| < B
        · have hstep : closestGo pw d q (r :: rest) best (JVal.num B)
              = closestGo pw d q rest r (JVal.num |x - q|) := by
            simp [closestGo, hkey, JVal.isFinite, JVal.jabs_jsub_num, JVal.jlt_num_num, hcmp]
          rw [hstep]
          rcases ih r |x - q| with ⟨heq, hall⟩ | ⟨l1, l2, k, hdec, hk, hlt, h1, h2⟩
          · right
            refine ⟨[], rest, x, by simp [heq], by rw [heq, hkey], hcmp, by simp, ?_⟩
            intro r' hr' y hy
            exact hall r' hr' y hy
          · right
            refine ⟨r :: l1, l2, k, by rw [List.cons_append, <- hdec], hk, lt_trans hlt hcmp, ?_, h2⟩
            intro r' hr' y hy
            rcases List.mem_cons.mp hr' with h | h
            · subst h; rw [hkey] at hy
              have : x = y := by injection hy
              subst this; exact hlt
            · exact h1 r' h y hy
        · have hstep : closestGo pw d q (r :: rest) best (JVal.num B)
              = closestGo pw d q rest best (JVal.num B) := by
            simp [closestGo, hkey, JVal.isFinite, JVal.jabs_jsub_num, JVal.jlt_num_num, hcmp]
          rw [hstep]
          push_neg at hcmp
          rcases ih best B with ⟨heq, hall⟩ | ⟨l1, l2, k, hdec, hk, hlt, h1, h2⟩
          · left
            refine ⟨heq, ?_⟩
            intro r' hr' y hy
            rcases List.mem_cons.mp hr' with h | h
            · subst h; rw [hkey] at hy
              have : x = y := by injection hy
              subst this; exact hcmp
            · exact hall r' h y hy
          · right
            refine ⟨r :: l1, l2, k, by rw [List.cons_append, <- hdec], hk, hlt, ?_, h2⟩
            intro r' hr' y hy
            rcases List.mem_cons.mp hr' with h | h
            · subst h; rw [hkey] at hy
              have : x = y := by injection hy
              subst this; exact lt_of_lt_of_le hlt hcmp
            · exact h1 r' h y hy

/-- Shared helper: when the head row's prediction for the distance is
finite, `findClosestRow` returns the first row attaining the minimum
absolute difference among rows with finite predictions. -/
theorem findClosestRow_nearest (pw : α) (d : InputDistance) (q : α)
    (r0 : PaceRow α) (rest : List (PaceRow α))
    (h0 : (getPredictionSeconds pw r0 d).isFinite = true) :
    ∃ res, findClosestRow pw (r0 :: rest) d q = some res ∧
      NearestByTime pw d q (r0 :: rest) res := by
  rcases JVal.isFinite_iff_num.mp h0 with ⟨x0, hx0⟩
  have hform : findClosestRow pw (r0 :: rest) d q
      = some (closestGo pw d q (r0 :: rest) r0 (JVal.num |x0 - q|)) := by
    simp [findClosestRow, hx0, JVal.jabs_jsub_num]
  rcases closestGo_spec pw d q (r0 :: rest) r0 |x0 - q| with
    ⟨heq, hall⟩ | ⟨l1, l2, k, hdec, hk, hlt, h1, h2⟩
  · refine ⟨r0, by rw [hform, heq], [], rest, x0, rfl, hx0, by simp, ?_⟩
    intro r hr x hx
    have := hall r hr x hx
    exact le_trans (le_refl _) (by exact this)
  · refine ⟨closestGo pw d q (r0 :: rest) r0 (JVal.num |x0 - q|), hform, l1, l2, k,
      hdec, hk, h1, ?_⟩
    intro r hr x hx
    rw [hdec] at hr
    rcases List.mem_append.mp hr with h | h
    · exact le_of_lt (h1 r h x hx)
    · rcases List.mem_cons.mp h with h | h
      · subst h
        rw [hk] at hx
        have : k = x := by injection hx
        subst this; exact le_refl _
      · exact h2 r h x hx

/-- Concrete rational test row used by witnesses and counterexamples; only
`id`, `paceIndex`, the 5k prediction and the half prediction vary, the other
fields are fixed plausible values. -/
def mkRow (idv pi : ℚ) (k5 half : JVal ℚ) : PaceRow ℚ :=
  { id := idv
    paceIndex := JVal.num pi
    pred := { m800 := JVal.num 130, mile := JVal.num 290, twoMile := JVal.num 620,
              k5 := k5, half := half, marathon := JVal.num 11000 }
    pace := { mile := JVal.num 290, twoMile := JVal.num 310, k5 := JVal.num 330 }
    cv := { m100 := JVal.num 20, m400 := JVal.num 80, m800 := JVal.num 165,
            m1000 := JVal.num 210, m1200 := JVal.num 255 }
    speed2m := { m100 := JVal.num 18, m200 := JVal.num 38, m300 := JVal.num 58,
                 m400 := JVal.num 78, m600 := JVal.num 120 } }

/-- Stand-in rational value for the float constant `Math.pow(2, 1.06)` in
concrete test instances (the resolution claims hold for any value). -/
def pwQ : ℚ := 2085 / 1000

def rowA : PaceRow ℚ := mkRow 0 50 (JVal.num 1200) (JVal.num 5600)

def rowB : PaceRow ℚ := mkRow 1 55 (JVal.num 1100) (JVal.num 5200)

/-- A row whose half-marathon prediction is JSON `null` (the table's 5k
gate does not force other distances to be present). -/
def rowHalfNull : PaceRow ℚ := mkRow 0 50 (JVal.num 1200) JVal.null

/-- Claim C1, counterexample: with a query for the half marathon against a
table whose FIRST row has a `null` half prediction, `findClosestRow`
initialises its best difference from that row with `null` coerced to `0`
(here `|0 - 100| = 100`), so the finite row at difference `5100` never wins
and the returned row has no finite prediction at all — the claim's
nearest-among-finite-rows property fails. -/
theorem C1_counterexample :
    findClosestRow pwQ [rowHalfNull, rowB] InputDistance.half 100 = some rowHalfNull ∧
    (getPredictionSeconds pwQ rowB InputDistance.half).isFinite = true ∧
    ¬ NearestByTime pwQ InputDistance.half 100 [rowHalfNull, rowB] rowHalfNull := by
  refine ⟨?_, by norm_num [rowB, mkRow, getPredictionSeconds, JVal.isFinite], ?_⟩
  · norm_num [findClosestRow, closestGo, getPredictionSeconds, rowHalfNull, rowB, mkRow,
      JVal.jabs, JVal.jsub, JVal.jadd, JVal.jneg, JVal.coerce, JVal.jlt, JVal.isFinite]
  rintro ⟨l1, l2, k, -, hk, -, -⟩
  simp [rowHalfNull, mkRow, getPredictionSeconds] at hk

/-- Claim C1 (amended): provided the first row's prediction for the
requested distance is finite, time-mode resolution returns the first row of
the table attaining the minimum absolute difference to the query time among
rows with a finite prediction for that distance. -/
theorem C1_time_mode_nearest (pw : α) (d : InputDistance) (q : α)
    (r0 : PaceRow α) (rest : List (PaceRow α))
    (h0 : (getPredictionSeconds pw r0 d).isFinite = true) :
    ∃ res, findClosestRow pw (r0 :: rest) d q = some res ∧
      NearestByTime pw d q (r0 :: rest) res :=
  findClosestRow_nearest pw d q r0 rest h0

/-- Witness for `C1_time_mode_nearest` at a concrete two-row table. -/
theorem C1_witness :
    (getPredictionSeconds pwQ rowA InputDistance.k5).isFinite = true ∧
    ∃ res, findClosestRow pwQ [rowA, rowB] InputDistance.k5 1190 = some res ∧
      NearestByTime pwQ InputDistance.k5 1190 [rowA, rowB] res :=
  ⟨by norm_num [rowA, mkRow, getPredictionSeconds, JVal.isFinite],
   C1_time_mode_nearest pwQ InputDistance.k5 1190 rowA [rowB]
     (by norm_num [rowA, mkRow, getPredictionSeconds, JVal.isFinite])⟩

theorem near_le_of_abs_le (A B q : α) (hBA : B < A) (h : |A - q| ≤ |B - q|) :
    A + B ≤ 2 * q := by
  have h1 : |A - q| ^ 2 ≤ |B - q| ^ 2 := pow_le_pow_left₀ (abs_nonneg _) h 2
  have hsq : (A - q) ^ 2 ≤ (B - q) ^ 2 := by simpa [sq_abs] using h1
  nlinarith [hsq, hBA]

theorem near_ge_of_abs_le (A B q : α) (hBA : B < A) (h : |B - q| ≤ |A - q|) :
    2 * q ≤ A + B := by
  have h1 : |B - q| ^ 2 ≤ |A - q| ^ 2 := pow_le_pow_left₀ (abs_nonneg _) h 2
  have hsq : (B - q) ^ 2 ≤ (A - q) ^ 2 := by simpa [sq_abs] using h1
  nlinarith [hsq, hBA]

/-- Claim C4: when every row has a finite prediction for the fixed distance
and predicted times strictly decrease as pace index increases, nearest-match
resolution is monotone: for query times `q1 < q2` the row resolved for `q1`
never has a slower (greater) predicted time than the row resolved for `q2`. -/
theorem C4_round_trip_monotonicity (pw : α) (d : InputDistance)
    (rows : List (PaceRow α))
    (hfin : ∀ r ∈ rows, (getPredictionSeconds pw r d).isFinite = true)
    (hmono : ∀ r ∈ rows, ∀ s ∈ rows, JVal.jlt r.paceIndex s.paceIndex = true →
      JVal.jlt (getPredictionSeconds pw s d) (getPredictionSeconds pw r d) = true)
    (q1 q2 : α) (hq : q1 < q2) (b1 b2 : PaceRow α)
    (h1 : findClosestRow pw rows d q1 = some b1)
    (h2 : findClosestRow pw rows d q2 = some b2)
    (x1 x2 : α) (hx1 : getPredictionSeconds pw b1 d = JVal.num x1)
    (hx2 : getPredictionSeconds pw b2 d = JVal.num x2) : x1 ≤ x2 := by
  cases rows with
  | nil => exact absurd h1 (by simp [findClosestRow])
  | cons r0 rest =>
    have h0 : (getPredictionSeconds pw r0 d).isFinite = true :=
      hfin r0 (List.mem_cons_self _ _)
    obtain ⟨res1, hres1, hN1⟩ := findClosestRow_nearest pw d q1 r0 rest h0
    obtain ⟨res2, hres2, hN2⟩ := findClosestRow_nearest pw d q2 r0 rest h0
    rw [hres1] at h1
    rw [hres2] at h2
    have hb1 : res1 = b1 := by injection h1
    have hb2 : res2 = b2 := by injection h2
    rw [hb1] at hN1
    rw [hb2] at hN2
    obtain ⟨l1, l2, k1, hdec1, hk1, -, hmin1⟩ := hN1
    obtain ⟨m1, m2, k2, hdec2, hk2, -, hmin2⟩ := hN2
    have hk1x : k1 = x1 := by rw [hk1] at hx1; injection hx1
    have hk2x : k2 = x2 := by rw [hk2] at hx2; injection hx2
    have hb1mem : b1 ∈ r0 :: rest := by
      rw [hdec1]; exact List.mem_append_right l1 (List.mem_cons_self _ _)
    have hb2mem : b2 ∈ r0 :: rest := by
      rw [hdec2]; exact List.mem_append_right m1 (List.mem_cons_self _ _)
    have hA : |x1 - q1| ≤ |x2 - q1| := by
      have h := hmin1 b2 hb2mem x2 hx2
      rwa [hk1x] at h
    have hB : |x2 - q2| ≤ |x1 - q2| := by
      have h := hmin2 b1 hb1mem x1 hx1
      rwa [hk2x] at h
    by_contra hc
    push_neg at hc
    have hle : x1 + x2 ≤ 2 * q1 := near_le_of_abs_le x1 x2 q1 hc hA
    have hge : 2 * q2 ≤ x1 + x2 := near_ge_of_abs_le x1 x2 q2 hc hB
    linarith

/-- Witness for `C4_round_trip_monotonicity` on a concrete monotone table. -/
theorem C4_witness :
    findClosestRow pwQ [rowA, rowB] InputDistance.k5 1110 = some rowB ∧
    findClosestRow pwQ [rowA, rowB] InputDistance.k5 1190 = some rowA ∧
    (1100 : ℚ) ≤ 1200 := by
  have e1 : findClosestRow pwQ [rowA, rowB] InputDistance.k5 1110 = some rowB := by
    norm_num [findClosestRow, closestGo, getPredictionSeconds, rowA, rowB, mkRow,
      JVal.jabs, JVal.jsub, JVal.jadd, JVal.jneg, JVal.coerce, JVal.jlt, JVal.isFinite]
  have e2 : findClosestRow pwQ [rowA, rowB] InputDistance.k5 1190 = some rowA := by
    norm_num [findClosestRow, closestGo, getPredictionSeconds, rowA, rowB, mkRow,
      JVal.jabs, JVal.jsub, JVal.jadd, JVal.jneg, JVal.coerce, JVal.jlt, JVal.isFinite]
  refine ⟨e1, e2, ?_⟩
  exact C4_round_trip_monotonicity pwQ InputDistance.k5 [rowA, rowB]
    (by intro r hr; fin_cases hr <;>
      norm_num [rowA, rowB, mkRow, getPredictionSeconds, JVal.isFinite])
    (by intro r hr s hs; fin_cases hr <;> fin_cases hs <;>
      norm_num [rowA, rowB, mkRow, getPredictionSeconds, JVal.jlt, JVal.coerce])
    1110 1190 (by norm_num) rowB rowA e1 e2 1100 1200
    (by norm_num [rowB, mkRow, getPredictionSeconds])
    (by norm_num [rowA, mkRow, getPredictionSeconds])

/-- The property claimed of pace-index resolution: the result is the first
row of the table attaining the minimum absolute pace-index difference (an
exact match has difference `0`, so this subsumes the exact-match case). -/
def NearestByPI (pi : α) (rows : List (PaceRowX α)) (res : PaceRowX α) : Prop :=
  ∃ l1 l2 k, rows = l1 ++ res :: l2 ∧ res.paceIndex = JVal.num k ∧
    (∀ r ∈ l1, ∀ x, r.paceIndex = JVal.num x → |k - pi| < |x - pi|) ∧
    (∀ r ∈ rows, ∀ x, r.paceIndex = JVal.num x → |k - pi| ≤ |x - pi|)

theorem findExact_eq_some (pi : α) :
    ∀ (l : List (PaceRowX α)) (r : PaceRowX α), findExact pi l = some r →
      ∃ l1 l2, l = l1 ++ r :: l2 ∧ r.paceIndex = JVal.num pi ∧
        ∀ s ∈ l1, s.paceIndex ≠ JVal.num pi := by
  intro l
  induction l with
  | nil => intro r h; exact absurd h (by simp [findExact])
  | cons a rest ih =>
      intro r h
      by_cases ha : a.paceIndex = JVal.num pi
      · have : a = r := by
          have h' : some a = some r := by simpa [findExact, ha] using h
          injection h'
        subst this
        exact ⟨[], rest, rfl, ha, by simp⟩
      · have h' : findExact pi rest = some r := by simpa [findExact, ha] using h
        obtain ⟨l1, l2, hdec, hr, hnone⟩ := ih r h'
        refine ⟨a :: l1, l2, by rw [List.cons_append, hdec], hr, ?_⟩
        intro s hs
        rcases List.mem_cons.mp hs with h | h
        · subst h; exact ha
        · exact hnone s h

theorem findExact_eq_none (pi : α) :
    ∀ l : List (PaceRowX α), findExact pi l = none →
      ∀ r ∈ l, r.paceIndex ≠ JVal.num pi := by
  intro l
  induction l with
  | nil => intro _ r hr; exact absurd hr (by simp)
  | cons a rest ih =>
      intro h r hr
      by_cases ha : a.paceIndex = JVal.num pi
      · exact absurd h (by simp [findExact, ha])
      · have h' : findExact pi rest = none := by simpa [findExact, ha] using h
        rcases List.mem_cons.mp hr with hcase | hcase
        · subst hcase; exact ha
        · exact ih h' r hcase

theorem piGo_spec (pi : α) :
    ∀ (l : List (PaceRowX α)) (best : PaceRowX α) (B : α),
      (∀ r ∈ l, r.paceIndex.isFinite = true) →
      (piGo pi l best (JVal.num B) = best ∧
        ∀ r ∈ l, ∀ x, r.paceIndex = JVal.num x → B ≤ |x - pi|) ∨
      (∃ l1 l2 k,
        l = l1 ++ piGo pi l best (JVal.num B) :: l2 ∧
        (piGo pi l best (JVal.num B)).paceIndex = JVal.num k ∧
        |k - pi| < B ∧
        (∀ r ∈ l1, ∀ x, r.paceIndex = JVal.num x → |k - pi| < |x - pi|) ∧
        (∀ r ∈ l2, ∀ x, r.paceIndex = JVal.num x → |k - pi| ≤ |x - pi|)) := by
  intro l
  induction l with
  | nil => intro best B _; left; exact ⟨rfl, by simp⟩
  | cons r rest ih =>
      intro best B hfin
      obtain ⟨x, hx⟩ := JVal.isFinite_iff_num.mp (hfin r (List.mem_cons_self _ _))
      have hfin' : ∀ s ∈ rest, s.paceIndex.isFinite = true := fun s hs =>
        hfin s (List.mem_cons_of_mem _ hs)
      by_cases hcmp : |x - pi| < B
      · have hstep : piGo pi (r :: rest) best (JVal.num B)
            = piGo pi rest r (JVal.num |x - pi|) := by
          simp [piGo, hx, JVal.jabs_jsub_num, JVal.jlt_num_num, hcmp]
        rw [hstep]
        rcases ih r |x - pi| hfin' with ⟨heq, hall⟩ | ⟨l1, l2, k, hdec, hk, hlt, h1, h2⟩
        · right
          refine ⟨[], rest, x, by simp [heq], by rw [heq, hx], hcmp, by simp, ?_⟩
          exact hall
        · right
          refine ⟨r :: l1, l2, k, by rw [List.cons_append, <- hdec], hk,
            lt_trans hlt hcmp, ?_, h2⟩
          intro s hs y hy
          rcases List.mem_cons.mp hs with h | h
          · subst h; rw [hx] at hy
            have : x = y := by injection hy
            subst this; exact hlt
          · exact h1 s h y hy
      · have hstep : piGo pi (r :: rest) best (JVal.num B)
            = piGo pi rest best (JVal.num B) := by
          simp [piGo, hx, JVal.jabs_jsub_num, JVal.jlt_num_num, hcmp]
        rw [hstep]
        push_neg at hcmp
        rcases ih best B hfin' with ⟨heq, hall⟩ | ⟨l1, l2, k, hdec, hk, hlt, h1, h2⟩
        · left
          refine ⟨heq, ?_⟩
          intro s hs y hy
          rcases List.mem_cons.mp hs with h | h
          · subst h; rw [hx] at hy
            have : x = y := by injection hy
            subst this; exact hcmp
          · exact hall s h y hy
        · right
          refine ⟨r :: l1, l2, k, by rw [List.cons_append, <- hdec], hk, hlt, ?_, h2⟩
          intro s hs y hy
          rcases List.mem_cons.mp hs with h | h
          · subst h; rw [hx] at hy
            have : x = y := by injection hy
            subst this; exact lt_of_lt_of_le hlt hcmp
          · exact h1 s h y hy

/-- Claim C5: on a non-empty table whose pace indexes are all numeric,
pace-index resolution returns the exact-matching row when one exists and
otherwise the first row minimising the absolute pace-index difference
(ties broken by table order). -/
theorem C5_pace_index_lookup (pi : α) (r0 : PaceRowX α) (rest : List (PaceRowX α))
    (hfin : ∀ r ∈ r0 :: rest, r.paceIndex.isFinite = true) :
    ∃ res, findRowByPI (r0 :: rest) pi = some res ∧
      NearestByPI pi (r0 :: rest) res ∧
      ((∃ r ∈ r0 :: rest, r.paceIndex = JVal.num pi) → res.paceIndex = JVal.num pi) := by
  rcases hex : findExact pi (r0 :: rest) with _ | r
  · obtain ⟨x0, hx0⟩ := JVal.isFinite_iff_num.mp (hfin r0 (List.mem_cons_self _ _))
    have hnone := findExact_eq_none pi (r0 :: rest) hex
    have hform : findRowByPI (r0 :: rest) pi
        = some (piGo pi (r0 :: rest) r0 (JVal.num |x0 - pi|)) := by
      simp [findRowByPI, hex, hx0, JVal.jabs_jsub_num]
    rcases piGo_spec pi (r0 :: rest) r0 |x0 - pi| hfin with
      ⟨heq, hall⟩ | ⟨l1, l2, k, hdec, hk, hlt, h1, h2⟩
    · refine ⟨r0, by rw [hform, heq], ⟨[], rest, x0, rfl, hx0, by simp, ?_⟩, ?_⟩
      · exact fun r hr x hx => hall r hr x hx
      · rintro ⟨r, hr, hrp⟩
        exact absurd hrp (hnone r hr)
    · refine ⟨piGo pi (r0 :: rest) r0 (JVal.num |x0 - pi|), hform,
        ⟨l1, l2, k, hdec, hk, h1, ?_⟩, ?_⟩
      · intro r hr x hx
        rw [hdec] at hr
        rcases List.mem_append.mp hr with h | h
        · exact le_of_lt (h1 r h x hx)
        · rcases List.mem_cons.mp h with h | h
          · subst h
            rw [hk] at hx
            have : k = x := by injection hx
            subst this; exact le_refl _
          · exact h2 r h x hx
      · rintro ⟨r, hr, hrp⟩
        exact absurd hrp (hnone r hr)
  · obtain ⟨l1, l2, hdec, hrp, hnotbefore⟩ := findExact_eq_some pi (r0 :: rest) r hex
    refine ⟨r, by simp [findRowByPI, hex], ⟨l1, l2, pi, hdec, hrp, ?_, ?_⟩, fun _ => hrp⟩
    · intro s hs x hx
      have hne : x ≠ pi := fun h => hnotbefore s hs (by rw [hx, h])
      have : 0 < |x - pi| := abs_pos.mpr (sub_ne_zero.mpr hne)
      simpa using this
    · intro s _ x _
      simp

/-- Concrete rational extended-shape test row (second page variant). -/
def mkRowX (idv pi : ℚ) (k5 thr : JVal ℚ) : PaceRowX ℚ :=
  { id := idv
    paceIndex := JVal.num pi
    pred := { m800 := JVal.num 130, mile := JVal.num 290, twoMile := JVal.num 620,
              k5 := k5, half := JVal.num 5600, marathon := JVal.num 11000 }
    pace := { mile := JVal.num 290, twoMile := JVal.num 310, k5 := JVal.num 330 }
    thresholdPace := thr
    fivekRepeats := some { m1600 := JVal.num 330, m1200 := JVal.num 248,
                           m1000 := JVal.num 206, m800 := JVal.num 165,
                           m400 := JVal.num 82, m100 := JVal.num 21 }
    cv := { m100 := JVal.num 20, m400 := JVal.num 80, m800 := JVal.num 165,
            m1000 := JVal.num 210, m1200 := JVal.num 255, m1600 := JVal.num 340 }
    speed2m := { m100 := JVal.num 18, m200 := JVal.num 38, m300 := JVal.num 58,
                 m400 := JVal.num 78, m600 := JVal.num 120 } }

def xrowA : PaceRowX ℚ := mkRowX 0 50 (JVal.num 1200) (JVal.num 300)

def xrowB : PaceRowX ℚ := mkRowX 1 55 (JVal.num 1100) JVal.null

/-- Witness for `C5_pace_index_lookup` at a concrete table and query. -/
theorem C5_witness :
    ∃ res, findRowByPI [xrowA, xrowB] (52 : ℚ) = some res ∧
      NearestByPI 52 [xrowA, xrowB] res ∧
      ((∃ r ∈ [xrowA, xrowB], r.paceIndex = JVal.num 52) →
        res.paceIndex = JVal.num 52) :=
  C5_pace_index_lookup 52 xrowA [xrowB]
    (by intro r hr; fin_cases hr <;> norm_num [xrowA, xrowB, mkRowX, JVal.isFinite])

theorem insertByT_perm (p : PaceRow α × α) (l : List (PaceRow α × α)) :
    List.Perm (insertByT p l) (p :: l) := by
  induction l with
  | nil => simp [insertByT]
  | cons q rest ih =>
      by_cases h : p.2 ≤ q.2
      · simp [insertByT, h]
      · simp only [insertByT, if_neg h]
        exact (ih.cons q).trans (List.Perm.swap p q rest)

theorem sortByT_perm (l : List (PaceRow α × α)) : List.Perm (sortByT l) l := by
  induction l with
  | nil => simp [sortByT]
  | cons p rest ih => exact (insertByT_perm p (sortByT rest)).trans (ih.cons p)

theorem pairwise_le_insertByT (p : PaceRow α × α) (l : List (PaceRow α × α))
    (h : List.Pairwise (fun a b => a.2 ≤ b.2) l) :
    List.Pairwise (fun a b => a.2 ≤ b.2) (insertByT p l) := by
  induction l with
  | nil => simp [insertByT]
  | cons q rest ih =>
      rcases List.pairwise_cons.mp h with ⟨hq, hrest⟩
      by_cases hpq : p.2 ≤ q.2
      · simp only [insertByT, if_pos hpq]
        refine List.pairwise_cons.mpr ⟨?_, h⟩
        intro x hx
        rcases List.mem_cons.mp hx with hx | hx
        · subst hx; exact hpq
        · exact le_trans hpq (hq x hx)
      · simp only [insertByT, if_neg hpq]
        refine List.pairwise_cons.mpr ⟨?_, ih hrest⟩
        intro x hx
        rcases List.mem_cons.mp ((insertByT_perm p rest).mem_iff.mp hx) with hx | hx
        · subst hx; exact le_of_not_le hpq
        · exact hq x hx

theorem sortByT_sorted (l : List (PaceRow α × α)) :
    List.Pairwise (fun a b => a.2 ≤ b.2) (sortByT l) := by
  induction l with
  | nil => simp [sortByT]
  | cons p rest ih => exact pairwise_le_insertByT p (sortByT rest) ih

theorem sortByT_pairwise_lt (l : List (PaceRow α × α))
    (hne : List.Pairwise (fun a b => a.2 ≠ b.2) l) :
    List.Pairwise (fun a b => a.2 < b.2) (sortByT l) := by
  have hne' : List.Pairwise (fun a b : PaceRow α × α => a.2 ≠ b.2) (sortByT l) :=
    ((sortByT_perm l).pairwise_iff fun h => Ne.symm h).mpr hne
  exact ((sortByT_sorted l).and hne').imp fun h => lt_of_le_of_ne h.1 h.2

/-- All numeric fields of a row are stored values (JSON `null` or a finite
number) — true of every row of the generated tables. -/
def StoredRow (r : PaceRow α) : Prop :=
  r.paceIndex.isStored ∧
  (r.pred.m800.isStored ∧ r.pred.mile.isStored ∧ r.pred.twoMile.isStored ∧
    r.pred.k5.isStored ∧ r.pred.half.isStored ∧ r.pred.marathon.isStored) ∧
  (r.pace.mile.isStored ∧ r.pace.twoMile.isStored ∧ r.pace.k5.isStored) ∧
  (r.cv.m100.isStored ∧ r.cv.m400.isStored ∧ r.cv.m800.isStored ∧
    r.cv.m1000.isStored ∧ r.cv.m1200.isStored) ∧
  (r.speed2m.m100.isStored ∧ r.speed2m.m200.isStored ∧ r.speed2m.m300.isStored ∧
    r.speed2m.m400.isStored ∧ r.speed2m.m600.isStored)

/-- The row the interpolation-boundary claim says a degenerate blend must
produce: the tabulated row with every numeric field rounded and the
synthetic sentinel `id = -1`. -/
def roundedSentinelRow [FloorRing α] (r : PaceRow α) : PaceRow α :=
  { id := -1
    paceIndex := JVal.jround r.paceIndex
    pred :=
      { m800 := JVal.jround r.pred.m800
        mile := JVal.jround r.pred.mile
        twoMile := JVal.jround r.pred.twoMile
        k5 := JVal.jround r.pred.k5
        half := JVal.jround r.pred.half
        marathon := JVal.jround r.pred.marathon }
    pace :=
      { mile := JVal.jround r.pace.mile
        twoMile := JVal.jround r.pace.twoMile
        k5 := JVal.jround r.pace.k5 }
    cv :=
      { m100 := JVal.jround r.cv.m100
        m400 := JVal.jround r.cv.m400
        m800 := JVal.jround r.cv.m800
        m1000 := JVal.jround r.cv.m1000
        m1200 := JVal.jround r.cv.m1200 }
    speed2m :=
      { m100 := JVal.jround r.speed2m.m100
        m200 := JVal.jround r.speed2m.m200
        m300 := JVal.jround r.speed2m.m300
        m400 := JVal.jround r.speed2m.m400
        m600 := JVal.jround r.speed2m.m600 } }

theorem jround_lerpJ_one [FloorRing α] (u v : JVal α)
    (hu : u.isStored) (hv : v.isStored) :
    JVal.jround (lerpJ u v (JVal.num 1)) = JVal.jround v := by
  cases u <;> cases v <;>
    simp_all [JVal.isStored, lerpJ, JVal.jadd, JVal.jsub, JVal.jneg, JVal.jmul,
      JVal.coerce, JVal.jround]

theorem jround_lerpJ_zero [FloorRing α] (u v : JVal α)
    (hu : u.isStored) (hv : v.isStored) :
    JVal.jround (lerpJ u v (JVal.num 0)) = JVal.jround u := by
  cases u <;> cases v <;>
    simp_all [JVal.isStored, lerpJ, JVal.jadd, JVal.jsub, JVal.jneg, JVal.jmul,
      JVal.coerce, JVal.jround]

theorem blendRow_one [FloorRing α] (a b : PaceRow α)
    (ha : StoredRow a) (hb : StoredRow b) :
    blendRow a b (JVal.num 1) = roundedSentinelRow b := by
  obtain ⟨hapi, ⟨ha1, ha2, ha3, ha4, ha5, ha6⟩, ⟨hb1, hb2, hb3⟩,
    ⟨hc1, hc2, hc3, hc4, hc5⟩, ⟨hd1, hd2, hd3, hd4, hd5⟩⟩ := ha
  obtain ⟨hbpi, ⟨hA1, hA2, hA3, hA4, hA5, hA6⟩, ⟨hB1, hB2, hB3⟩,
    ⟨hC1, hC2, hC3, hC4, hC5⟩, ⟨hD1, hD2, hD3, hD4, hD5⟩⟩ := hb
  simp only [blendRow, roundedSentinelRow, PaceRow.mk.injEq, PredT.mk.injEq,
    PaceT.mk.injEq, CvT.mk.injEq, Speed2mT.mk.injEq]
  exact ⟨trivial, jround_lerpJ_one _ _ hapi hbpi,
    ⟨jround_lerpJ_one _ _ ha1 hA1, jround_lerpJ_one _ _ ha2 hA2,
      jround_lerpJ_one _ _ ha3 hA3, jround_lerpJ_one _ _ ha4 hA4,
      jround_lerpJ_one _ _ ha5 hA5, jround_lerpJ_one _ _ ha6 hA6⟩,
    ⟨jround_lerpJ_one _ _ hb1 hB1, jround_lerpJ_one _ _ hb2 hB2,
      jround_lerpJ_one _ _ hb3 hB3⟩,
    ⟨jround_lerpJ_one _ _ hc1 hC1, jround_lerpJ_one _ _ hc2 hC2,
      jround_lerpJ_one _ _ hc3 hC3, jround_lerpJ_one _ _ hc4 hC4,
      jround_lerpJ_one _ _ hc5 hC5⟩,
    ⟨jround_lerpJ_one _ _ hd1 hD1, jround_lerpJ_one _ _ hd2 hD2,
      jround_lerpJ_one _ _ hd3 hD3, jround_lerpJ_one _ _ hd4 hD4,
      jround_lerpJ_one _ _ hd5 hD5⟩⟩

theorem blendRow_zero [FloorRing α] (a b : PaceRow α)
    (ha : StoredRow a) (hb : StoredRow b) :
    blendRow a b (JVal.num 0) = roundedSentinelRow a := by
  obtain ⟨hapi, ⟨ha1, ha2, ha3, ha4, ha5, ha6⟩, ⟨hb1, hb2, hb3⟩,
    ⟨hc1, hc2, hc3, hc4, hc5⟩, ⟨hd1, hd2, hd3, hd4, hd5⟩⟩ := ha
  obtain ⟨hbpi, ⟨hA1, hA2, hA3, hA4, hA5, hA6⟩, ⟨hB1, hB2, hB3⟩,
    ⟨hC1, hC2, hC3, hC4, hC5⟩, ⟨hD1, hD2, hD3, hD4, hD5⟩⟩ := hb
  simp only [blendRow, roundedSentinelRow, PaceRow.mk.injEq, PredT.mk.injEq,
    PaceT.mk.injEq, CvT.mk.injEq, Speed2mT.mk.injEq]
  exact ⟨trivial, jround_lerpJ_zero _ _ hapi hbpi,
    ⟨jround_lerpJ_zero _ _ ha1 hA1, jround_lerpJ_zero _ _ ha2 hA2,
      jround_lerpJ_zero _ _ ha3 hA3, jround_lerpJ_zero _ _ ha4 hA4,
      jround_lerpJ_zero _ _ ha5 hA5, jround_lerpJ_zero _ _ ha6 hA6⟩,
    ⟨jround_lerpJ_zero _ _ hb1 hB1, jround_lerpJ_zero _ _ hb2 hB2,
      jround_lerpJ_zero _ _ hb3 hB3⟩,
    ⟨jround_lerpJ_zero _ _ hc1 hC1, jround_lerpJ_zero _ _ hc2 hC2,
      jround_lerpJ_zero _ _ hc3 hC3, jround_lerpJ_zero _ _ hc4 hC4,
      jround_lerpJ_zero _ _ hc5 hC5⟩,
    ⟨jround_lerpJ_zero _ _ hd1 hD1, jround_lerpJ_zero _ _ hd2 hD2,
      jround_lerpJ_zero _ _ hd3 hD3, jround_lerpJ_zero _ _ hd4 hD4,
      jround_lerpJ_zero _ _ hd5 hD5⟩⟩

theorem jdivT_self (x : α) (h : x ≠ 0) : jdivT x x = JVal.num 1 := by
  simp [jdivT, h, div_self h]

theorem jdivT_zero_num (y : α) (h : y ≠ 0) : jdivT 0 y = JVal.num 0 := by
  simp [jdivT, h]

theorem bracketScan_tail_hit [FloorRing α] (r : PaceRow α) (tr : α) :
    ∀ S : List (PaceRow α × α),
      List.Pairwise (fun a b => a.2 < b.2) S →
      (∀ p ∈ S, StoredRow p.1) →
      StoredRow r →
      (r, tr) ∈ S.tail →
      bracketScan tr S = some (roundedSentinelRow r) := by
  intro S
  induction S with
  | nil => intro _ _ _ h; simp at h
  | cons a S' ih =>
      intro hlt hst hr hmem
      cases S' with
      | nil => simp at hmem
      | cons b rest =>
          rcases List.mem_cons.mp hmem with heq | htail
          · have hab : a.2 < b.2 :=
              (List.pairwise_cons.mp hlt).1 b (List.mem_cons_self _ _)
            have hb2 : b.2 = tr := by rw [<- heq]
            have hb1 : b.1 = r := by rw [<- heq]
            have hcond : a.2 ≤ tr ∧ tr ≤ b.2 := ⟨le_of_lt (hb2 ▸ hab), le_of_eq hb2.symm⟩
            have hne : tr - a.2 ≠ 0 := sub_ne_zero.mpr (ne_of_gt (hb2 ▸ hab))
            have : bracketScan tr (a :: b :: rest)
                = some (blendRow a.1 b.1 (jdivT (tr - a.2) (b.2 - a.2))) := by
              simp [bracketScan, hcond]
            rw [this, hb2, hb1, jdivT_self _ hne,
              blendRow_one a.1 r (hst a (List.mem_cons_self _ _)) hr]
          · have hbt : b.2 < tr := by
              have h2 := (List.pairwise_cons.mp (List.pairwise_cons.mp hlt).2).1
              exact h2 (r, tr) htail
            have hcond : ¬ (a.2 ≤ tr ∧ tr ≤ b.2) := by
              rintro ⟨-, h⟩; exact absurd h (not_le.mpr hbt)
            have hstep : bracketScan tr (a :: b :: rest) = bracketScan tr (b :: rest) := by
              simp [bracketScan, hcond]
            rw [hstep]
            exact ih (List.pairwise_cons.mp hlt).2
              (fun p hp => hst p (List.mem_cons_of_mem _ hp)) hr htail

/-- Claim C3 (amended): on a table of stored rows with at least two rows
having finite predictions for the chosen distance, and with those finite
predicted times pairwise distinct, querying the interpolation-policy
resolver exactly at a tabulated row's predicted time returns that row
unchanged modulo rounding, as a synthetic row carrying the sentinel
`id = -1`. -/
theorem C3_interpolation_boundary [FloorRing α] (pw : α) (d : InputDistance)
    (rows : List (PaceRow α)) (r : PaceRow α) (tr : α)
    (hstored : ∀ s ∈ rows, StoredRow s)
    (hdist : List.Pairwise (fun a b => a.2 ≠ b.2)
      (rows.filterMap fun s => match getPredSeconds pw s d with
        | JVal.num x => some (s, x) | _ => none))
    (hlen : 2 ≤ (rows.filterMap fun s => match getPredSeconds pw s d with
        | JVal.num x => some (s, x) | _ => none).length)
    (hmem : r ∈ rows) (hkey : getPredSeconds pw r d = JVal.num tr) :
    pickInterpolatedRow pw rows d tr = some (roundedSentinelRow r) := by
  have hperm := sortByT_perm (rows.filterMap fun s =>
    match getPredSeconds pw s d with
    | JVal.num x => some (s, x) | _ => none)
  have hSlt := sortByT_pairwise_lt _ hdist
  have hmemL : (r, tr) ∈ (rows.filterMap fun s =>
      match getPredSeconds pw s d with
      | JVal.num x => some (s, x) | _ => none) := by
    refine List.mem_filterMap.mpr ⟨r, hmem, ?_⟩
    rw [hkey]
  have hmemS := hperm.mem_iff.mpr hmemL
  have hlenS : 2 ≤ (sortByT (rows.filterMap fun s =>
      match getPredSeconds pw s d with
      | JVal.num x => some (s, x) | _ => none)).length := by
    rw [hperm.length_eq]; exact hlen
  have hstoredS : ∀ p ∈ (sortByT (rows.filterMap fun s =>
      match getPredSeconds pw s d with
      | JVal.num x => some (s, x) | _ => none)), StoredRow p.1 := by
    intro p hp
    rcases List.mem_filterMap.mp (hperm.mem_iff.mp hp) with ⟨s, hs, hfs⟩
    rcases hcase : getPredSeconds pw s d with _ | _ | t | x <;> rw [hcase] at hfs
    · exact absurd hfs (by simp)
    · exact absurd hfs (by simp)
    · exact absurd hfs (by simp)
    · have hps : p.1 = s := by
        have : (s, x) = p := by injection hfs
        rw [<- this]
      rw [hps]; exact hstored s hs
  rcases hS : sortByT (rows.filterMap fun s =>
      match getPredSeconds pw s d with
      | JVal.num x => some (s, x) | _ => none) with _ | ⟨a, S1⟩
  · rw [hS] at hlenS; simp at hlenS
  rcases hS1 : S1 with _ | ⟨b, rest⟩
  · rw [hS, hS1] at hlenS; simp at hlenS
  rw [hS1] at hS
  rw [hS] at hSlt hmemS hstoredS
  have hstored_r : StoredRow r := hstored r hmem
  have hne_nil : (a :: b :: rest) ≠ [] := by simp
  have hdl_ne : (a :: b :: rest).dropLast ≠ [] := by
    cases rest <;> simp [List.dropLast]
  have hpick : pickInterpolatedRow pw rows d tr
      = (if tr ≤ a.2 then
          some (blendRow a.1 b.1 (jdivT (tr - a.2) (b.2 - a.2)))
        else
          if ((a :: b :: rest).getLast hne_nil).2 ≤ tr then
            some (blendRow ((a :: b :: rest).dropLast.getLast hdl_ne).1
              ((a :: b :: rest).getLast hne_nil).1
              (jdivT (tr - ((a :: b :: rest).dropLast.getLast hdl_ne).2)
                (((a :: b :: rest).getLast hne_nil).2
                  - ((a :: b :: rest).dropLast.getLast hdl_ne).2)))
          else
            match bracketScan tr (a :: b :: rest) with
            | some row => some row
            | none => some a.1) := by
    rw [pickInterpolatedRow, hS]
  rcases List.mem_cons.mp hmemS with heq | htail
  · -- the queried row is the fastest candidate: t = 0 reduces to it
    have ha2 : a.2 = tr := by rw [<- heq]
    have ha1 : a.1 = r := by rw [<- heq]
    have hab : a.2 < b.2 := (List.pairwise_cons.mp hSlt).1 b (List.mem_cons_self _ _)
    have hne : b.2 - a.2 ≠ 0 := sub_ne_zero.mpr (ne_of_gt hab)
    have h0 : tr - a.2 = 0 := by rw [ha2, sub_self]
    rw [hpick, if_pos (le_of_eq ha2.symm), h0, jdivT_zero_num _ hne,
      blendRow_zero a.1 b.1 (hstoredS a (List.mem_cons_self _ _))
        (hstoredS b (List.mem_cons_of_mem _ (List.mem_cons_self _ _))), ha1]
  · -- the queried row is a later candidate
    have hat : a.2 < tr := (List.pairwise_cons.mp hSlt).1 (r, tr) htail
    have hnotle : ¬ tr ≤ a.2 := not_le.mpr hat
    have hdecomp : (a :: b :: rest).dropLast ++ [(a :: b :: rest).getLast hne_nil]
        = a :: b :: rest := List.dropLast_append_getLast hne_nil
    have hsplit := List.pairwise_append.mp (hdecomp ▸ hSlt)
    have halmem : (a :: b :: rest).dropLast.getLast hdl_ne ∈ (a :: b :: rest).dropLast :=
      List.getLast_mem hdl_ne
    have hal_lt : ((a :: b :: rest).dropLast.getLast hdl_ne).2
        < ((a :: b :: rest).getLast hne_nil).2 :=
      hsplit.2.2 _ halmem _ (List.mem_singleton_self _)
    rcases List.mem_append.mp (hdecomp ▸ hmemS) with hmid | hend
    · -- strictly inside: the bracket scan hits with t = 1
      have htr_lt : tr < ((a :: b :: rest).getLast hne_nil).2 :=
        hsplit.2.2 (r, tr) hmid _ (List.mem_singleton_self _)
      have hnotle2 : ¬ ((a :: b :: rest).getLast hne_nil).2 ≤ tr := not_le.mpr htr_lt
      rw [hpick, if_neg hnotle, if_neg hnotle2, bracketScan_tail_hit r tr
        (a :: b :: rest) hSlt hstoredS hstored_r htail]
    · -- the queried row is the slowest candidate: t = 1 from the last pair
      have heqlast : (a :: b :: rest).getLast hne_nil = (r, tr) :=
        (List.mem_singleton.mp hend).symm
      have hbl2 : ((a :: b :: rest).getLast hne_nil).2 = tr := by rw [heqlast]
      have hbl1 : ((a :: b :: rest).getLast hne_nil).1 = r := by rw [heqlast]
      have hle2 : ((a :: b :: rest).getLast hne_nil).2 ≤ tr := le_of_eq hbl2
      have hlt2 : ((a :: b :: rest).dropLast.getLast hdl_ne).2 < tr := by
        rw [<- hbl2]; exact hal_lt
      have hne2 : tr - ((a :: b :: rest).dropLast.getLast hdl_ne).2 ≠ 0 :=
        sub_ne_zero.mpr (ne_of_gt hlt2)
      have hstored_al : StoredRow ((a :: b :: rest).dropLast.getLast hdl_ne).1 :=
        hstoredS _ (List.dropLast_subset _ halmem)
      rw [hpick, if_neg hnotle, if_pos hle2, hbl1, hbl2, jdivT_self _ hne2,
        blendRow_one _ r hstored_al hstored_r]

def rowDup1 : PaceRow ℚ := mkRow 0 50 (JVal.num 100) (JVal.num 5600)

def rowDup2 : PaceRow ℚ := mkRow 1 55 (JVal.num 100) (JVal.num 5200)

/-- Claim C3, counterexample: with two rows sharing the same finite 5k
prediction (100 s), querying exactly at that tabulated time divides by zero
(`t = 0/0 = NaN`) and the blended row's fields are all `NaN` — not the
tabulated row modulo rounding (whose 5k prediction rounds to `100`). -/
theorem C3_counterexample :
    (pickInterpolatedRow pwQ [rowDup1, rowDup2] InputDistance.k5 100).map
      (fun b => b.pred.k5) = some JVal.nan ∧
    JVal.jround rowDup1.pred.k5 = JVal.num 100 ∧
    JVal.jround rowDup2.pred.k5 = JVal.num 100 := by
  refine ⟨?_, ?_, ?_⟩
  · norm_num [pickInterpolatedRow, sortByT, insertByT, List.filterMap_cons,
      getPredSeconds, rowDup1, rowDup2, mkRow, jdivT, blendRow, lerpJ,
      JVal.jadd, JVal.jsub, JVal.jneg, JVal.jmul, JVal.coerce, JVal.jround]
  · norm_num [rowDup1, mkRow, JVal.jround, JVal.coerce]
  · norm_num [rowDup2, mkRow, JVal.jround, JVal.coerce]

/-- Witness for `C3_interpolation_boundary` on a concrete two-row table with
distinct predictions, queried at the slower row's tabulated 5k time. -/
theorem C3_witness :
    pickInterpolatedRow pwQ [rowA, rowB] InputDistance.k5 1100
      = some (roundedSentinelRow rowB) := by
  refine C3_interpolation_boundary pwQ InputDistance.k5 [rowA, rowB] rowB 1100 ?_ ?_ ?_ ?_ ?_
  · intro s hs
    fin_cases hs <;>
      simp [StoredRow, rowA, rowB, mkRow, JVal.isStored]
  · norm_num [List.filterMap_cons, getPredSeconds, rowA, rowB, mkRow]
  · norm_num [List.filterMap_cons, getPredSeconds, rowA, rowB, mkRow]
  · simp
  · norm_num [getPredSeconds, rowB, mkRow]

/-- Claim C10 (amended): on a non-empty table, nearest-match time
resolution, pace-index resolution and the by-time variant never crash; the
interpolation-policy resolver never crashes provided at least two rows have
finite predictions for the requested distance (with fewer it dereferences
`undefined`, modelled as `none`). -/
theorem C10_no_crash [FloorRing α] :
    (∀ (pw q : α) (d : InputDistance) (r0 : PaceRow α) (rest : List (PaceRow α)),
      (findClosestRow pw (r0 :: rest) d q).isSome = true) ∧
    (∀ (pw q : α) (d : InputDistance) (r0 : PaceRowX α) (rest : List (PaceRowX α)),
      (findClosestRowByTime pw (r0 :: rest) d q).isSome = true) ∧
    (∀ (pi : α) (r0 : PaceRowX α) (rest : List (PaceRowX α)),
      (findRowByPI (r0 :: rest) pi).isSome = true) ∧
    (∀ (pw q : α) (d : InputDistance) (rows : List (PaceRow α)),
      2 ≤ (rows.filterMap fun s => match getPredSeconds pw s d with
        | JVal.num x => some (s, x) | _ => none).length →
      (pickInterpolatedRow pw rows d q).isSome = true) := by
  refine ⟨?_, ?_, ?_, ?_⟩
  · intro pw q d r0 rest; simp [findClosestRow]
  · intro pw q d r0 rest; simp [findClosestRowByTime]
  · intro pi r0 rest
    rcases h : findExact pi (r0 :: rest) with _ | r <;> simp [findRowByPI, h]
  · intro pw q d rows hlen
    have hperm := sortByT_perm (rows.filterMap fun s =>
      match getPredSeconds pw s d with
      | JVal.num x => some (s, x) | _ => none)
    have hlenS : 2 ≤ (sortByT (rows.filterMap fun s =>
        match getPredSeconds pw s d with
        | JVal.num x => some (s, x) | _ => none)).length := by
      rw [hperm.length_eq]; exact hlen
    rcases hS : sortByT (rows.filterMap fun s =>
        match getPredSeconds pw s d with
        | JVal.num x => some (s, x) | _ => none) with _ | ⟨a, S1⟩
    · rw [hS] at hlenS; simp at hlenS
    rcases hS1 : S1 with _ | ⟨b, rest2⟩
    · rw [hS, hS1] at hlenS; simp at hlenS
    rw [hS1] at hS
    have hne_nil : (a :: b :: rest2) ≠ [] := by simp
    have hdl_ne : (a :: b :: rest2).dropLast ≠ [] := by
      cases rest2 <;> simp [List.dropLast]
    have hpick : pickInterpolatedRow pw rows d q
        = (if q ≤ a.2 then
            some (blendRow a.1 b.1 (jdivT (q - a.2) (b.2 - a.2)))
          else
            if ((a :: b :: rest2).getLast hne_nil).2 ≤ q then
              some (blendRow ((a :: b :: rest2).dropLast.getLast hdl_ne).1
                ((a :: b :: rest2).getLast hne_nil).1
                (jdivT (q - ((a :: b :: rest2).dropLast.getLast hdl_ne).2)
                  (((a :: b :: rest2).getLast hne_nil).2
                    - ((a :: b :: rest2).dropLast.getLast hdl_ne).2)))
            else
              match bracketScan q (a :: b :: rest2) with
              | some row => some row
              | none => some a.1) := by
      rw [pickInterpolatedRow, hS]
    rw [hpick]
    by_cases h1 : q ≤ a.2
    · simp [h1]
    · rw [if_neg h1]
      by_cases h2 : ((a :: b :: rest2).getLast hne_nil).2 ≤ q
      · rw [if_pos h2]; simp
      · rw [if_neg h2]
        rcases hbs : bracketScan q (a :: b :: rest2) with _ | row <;> simp [hbs]

/-- Claim C10, counterexample: a one-row table satisfies the stated
precondition (non-empty, and its row has a finite 5k prediction), yet the
interpolation-policy resolver dereferences `undefined` (modelled `none`),
i.e. it crashes rather than degrading. -/
theorem C10_counterexample :
    pickInterpolatedRow pwQ [rowA] InputDistance.k5 1200 = none ∧
    (getPredSeconds pwQ rowA InputDistance.k5).isFinite = true := by
  constructor
  · norm_num [pickInterpolatedRow, sortByT, insertByT, List.filterMap_cons,
      getPredSeconds, rowA, mkRow]
  · norm_num [getPredSeconds, rowA, mkRow, JVal.isFinite]

/-- Witness for `C10_no_crash` at concrete tables. -/
theorem C10_witness :
    (findClosestRow pwQ [rowA] InputDistance.k5 1200).isSome = true ∧
    (findClosestRowByTime pwQ [xrowA] InputDistance.k5 1200).isSome = true ∧
    (findRowByPI [xrowA] (50 : ℚ)).isSome = true ∧
    (pickInterpolatedRow pwQ [rowA, rowB] InputDistance.k5 1150).isSome = true := by
  refine ⟨C10_no_crash.1 pwQ 1200 InputDistance.k5 rowA [],
    C10_no_crash.2.1 pwQ 1200 InputDistance.k5 xrowA [],
    C10_no_crash.2.2.1 50 xrowA [],
    C10_no_crash.2.2.2 pwQ 1150 InputDistance.k5 [rowA, rowB] ?_⟩
  norm_num [List.filterMap_cons, getPredSeconds, rowA, rowB, mkRow]

theorem jdiv_const_jmul (p : JVal α) (c m : α) (hc : 0 < c) (hm : 0 < m) :
    JVal.jmul (JVal.jdiv p (JVal.num c)) (JVal.num m)
      = JVal.jmul p (JVal.num (m / c)) := by
  have hc0 : c ≠ 0 := ne_of_gt hc
  have hm0 : m ≠ 0 := ne_of_gt hm
  have hmc : 0 < m / c := div_pos hm hc
  have hmc0 : m / c ≠ 0 := ne_of_gt hmc
  cases p with
  | null => simp [JVal.jdiv, JVal.jmul, JVal.coerce, hc0, hm0, hmc0]
  | nan => simp [JVal.jdiv, JVal.jmul, JVal.coerce]
  | inf s =>
      simp [JVal.jdiv, JVal.jmul, JVal.coerce, not_lt.mpr (le_of_lt hc), hm0, hmc0, hm, hmc]
  | num x =>
      simp only [JVal.jdiv, JVal.jmul, JVal.coerce]
      rw [if_neg hc0]
      simp only [JVal.jmul]
      congr 1
      field_simp

/-- Claim C6 (amended): the threshold pace is the explicit `thresholdPace`
when it is a number and the mile race pace when it is `null`; the second
page variant derives the 400 m / 100 m splits as
`threshold_pace * (distance / 1609.344)`, while the first and third page
variants instead divide the mile race pace by 4 and by 16. -/
theorem C6_threshold_amended :
    (∀ r : PaceRowX α, r.thresholdPace = JVal.null → thrPace r = r.pace.mile) ∧
    (∀ (r : PaceRowX α) (v : α), r.thresholdPace = JVal.num v →
      thrPace r = JVal.num v) ∧
    (∀ r : PaceRowX α, thr400 r
      = JVal.jmul (thrPace r) (JVal.num (400 / (1609344 / 1000)))) ∧
    (∀ r : PaceRowX α, thr100 r
      = JVal.jmul (thrPace r) (JVal.num (100 / (1609344 / 1000)))) ∧
    (∀ p : JVal α, thresholdSplits p
      = ⟨p, JVal.jdiv p (JVal.num 4), JVal.jdiv p (JVal.num 16)⟩) ∧
    (∀ p : JVal α, thresholdSplits3 p
      = ⟨p, JVal.jdiv p (JVal.num 4), JVal.jdiv p (JVal.num 16)⟩) := by
  refine ⟨?_, ?_, ?_, ?_, fun p => rfl, fun p => rfl⟩
  · intro r h; simp [thrPace, h]
  · intro r v h; simp [thrPace, h]
  · intro r
    exact jdiv_const_jmul (thrPace r) (1609344 / 1000) 400 (by norm_num) (by norm_num)
  · intro r
    exact jdiv_const_jmul (thrPace r) (1609344 / 1000) 100 (by norm_num) (by norm_num)

/-- Claim C6, counterexample: at a mile pace of 320 s the first page
variant's 400 m threshold split is `320 / 4 = 80`, which differs from the
claimed `320 * (400 / 1609.344) = 128000000 / 1609344 ≈ 79.54`. -/
theorem C6_counterexample :
    (thresholdSplits (JVal.num (320 : ℚ))).m400 = JVal.num 80 ∧
    JVal.jmul (JVal.num (320 : ℚ)) (JVal.num (400 / (1609344 / 1000)))
      = JVal.num (128000000 / 1609344) ∧
    (80 : ℚ) ≠ 128000000 / 1609344 := by
  refine ⟨?_, ?_, by norm_num⟩
  · norm_num [thresholdSplits, JVal.jdiv, JVal.coerce]
  · norm_num [JVal.jmul, JVal.coerce]

/-- Witness for `C6_threshold_amended` at concrete rows (one with an
explicit threshold pace, one with `null`). -/
theorem C6_witness :
    thrPace xrowB = xrowB.pace.mile ∧
    thrPace xrowA = JVal.num 300 ∧
    thr400 xrowA = JVal.jmul (thrPace xrowA) (JVal.num ((400 : ℚ) / (1609344 / 1000))) :=
  ⟨C6_threshold_amended.1 xrowB (by norm_num [xrowB, mkRowX]),
   C6_threshold_amended.2.1 xrowA 300 (by norm_num [xrowA, mkRowX]),
   C6_threshold_amended.2.2.1 xrowA⟩

/-- The Riegel factor `Math.pow(2, 1.06)` idealised to the exact real
`2 ^ 1.06` (the source computes it in floating point). -/
noncomputable def pow2_106 : ℝ := (2 : ℝ) ^ (1.06 : ℝ)

theorem pow2_106_pow50 : pow2_106 ^ (50 : ℕ) = 2 ^ (53 : ℕ) := by
  have h106 : (1.06 : ℝ) = 53 / 50 := by norm_num
  rw [pow2_106, h106, <- Real.rpow_natCast ((2 : ℝ) ^ ((53 : ℝ) / 50)) 50,
    <- Real.rpow_mul (by norm_num : (0:ℝ) ≤ 2)]
  norm_num

theorem pow2_106_lt : pow2_106 < 2.086 := by
  by_contra hle
  push_neg at hle
  have hp : (2.086 : ℝ) ^ (50 : ℕ) ≤ pow2_106 ^ (50 : ℕ) :=
    pow_le_pow_left₀ (by norm_num) hle 50
  rw [pow2_106_pow50] at hp
  norm_num at hp

theorem pow2_106_gt : 2.083 < pow2_106 := by
  by_contra hle
  push_neg at hle
  have hpos : (0 : ℝ) < pow2_106 := Real.rpow_pos_of_pos (by norm_num) _
  have hp : pow2_106 ^ (50 : ℕ) ≤ (2.083 : ℝ) ^ (50 : ℕ) :=
    pow_le_pow_left₀ (le_of_lt hpos) hle 50
  rw [pow2_106_pow50] at hp
  norm_num at hp

/-- Claim C9, counterexample: the 10k projection of a 1200 s 5k is
`1200 * 2^1.06 < 2504` seconds, more than 30 s away from the claimed
"approximately 2536 seconds" (which corresponds to exponent 1.08, not the
1.06 the code uses). -/
theorem C9_counterexample :
    predict10kFrom5kSeconds pow2_106 (JVal.num (1200 : ℝ))
      = JVal.num (1200 * pow2_106) ∧
    1200 * pow2_106 < 2504 ∧
    (30 : ℝ) < |1200 * pow2_106 - 2536| := by
  have hlt := pow2_106_lt
  have h1 : 1200 * pow2_106 < 2504 := by nlinarith
  refine ⟨by simp [predict10kFrom5kSeconds, JVal.jmul, JVal.coerce], h1, ?_⟩
  have hneg : 1200 * pow2_106 - 2536 < 0 := by linarith
  rw [abs_of_neg hneg]
  linarith

/-- Claim C9 (amended): the derived 10k prediction is `t5k * 2^1.06`
(approximately 2502 seconds for a 1200 s 5k, not 2536), it depends only on
the stored 5k prediction, and the row type stores no 10k field to read. -/
theorem C9_riegel_amended :
    (∀ t : ℝ, predict10kFrom5kSeconds pow2_106 (JVal.num t)
      = JVal.num (t * pow2_106)) ∧
    (∀ (pw : ℝ) (r s : PaceRow ℝ), r.pred.k5 = s.pred.k5 →
      getPredictionSeconds pw r InputDistance.k10
        = getPredictionSeconds pw s InputDistance.k10) ∧
    (2499 < 1200 * pow2_106 ∧ 1200 * pow2_106 < 2504) := by
  have hgt := pow2_106_gt
  have hlt := pow2_106_lt
  refine ⟨?_, ?_, by nlinarith, by nlinarith⟩
  · intro t; simp [predict10kFrom5kSeconds, JVal.jmul, JVal.coerce]
  · intro pw r s h
    simp [getPredictionSeconds, predict10kFrom5kSeconds, h]

def rrow1 : PaceRow ℝ :=
  { id := 0
    paceIndex := JVal.num 50
    pred := { m800 := JVal.num 130, mile := JVal.num 290, twoMile := JVal.num 620,
              k5 := JVal.num 1200, half := JVal.num 5600, marathon := JVal.num 11000 }
    pace := { mile := JVal.num 290, twoMile := JVal.num 310, k5 := JVal.num 330 }
    cv := { m100 := JVal.num 20, m400 := JVal.num 80, m800 := JVal.num 165,
            m1000 := JVal.num 210, m1200 := JVal.num 255 }
    speed2m := { m100 := JVal.num 18, m200 := JVal.num 38, m300 := JVal.num 58,
                 m400 := JVal.num 78, m600 := JVal.num 120 } }

def rrow2 : PaceRow ℝ :=
  { id := 1
    paceIndex := JVal.num 55
    pred := { m800 := JVal.num 125, mile := JVal.num 280, twoMile := JVal.num 600,
              k5 := JVal.num 1200, half := JVal.num 5400, marathon := JVal.num 10500 }
    pace := { mile := JVal.num 280, twoMile := JVal.num 300, k5 := JVal.num 320 }
    cv := { m100 := JVal.num 19, m400 := JVal.num 78, m800 := JVal.num 160,
            m1000 := JVal.num 205, m1200 := JVal.num 250 }
    speed2m := { m100 := JVal.num 17, m200 := JVal.num 36, m300 := JVal.num 56,
                 m400 := JVal.num 76, m600 := JVal.num 118 } }

/-- Witness for `C9_riegel_amended`: two rows that differ everywhere except
the 5k prediction get identical synthesized 10k predictions. -/
theorem C9_witness :
    getPredictionSeconds (2 : ℝ) rrow1 InputDistance.k10
      = getPredictionSeconds (2 : ℝ) rrow2 InputDistance.k10 :=
  C9_riegel_amended.2.1 2 rrow1 rrow2 rfl

/-- Whitespace recognised by JS `trim` as it occurs in this data (plain
spaces, tabs, newlines). -/
def isWS (c : Char) : Bool := c == ' ' || c == '\t' || c == '\n' || c == '\r'

/-- JS `String.prototype.trim`, on strings modelled as character lists. -/
def trimChars (l : List Char) : List Char :=
  ((l.dropWhile isWS).reverse.dropWhile isWS).reverse

/-- JS `String.prototype.split` with a single-character separator. -/
def splitOnChar (sep : Char) (l : List Char) : List (List Char) :=
  l.foldr
    (fun c acc =>
      if c = sep then [] :: acc
      else
        match acc with
        | h :: t => (c :: h) :: t
        | [] => [[c]])
    [[]]

/-- Numeric value of a decimal digit string. -/
def digitsVal (l : List Char) : ℕ :=
  l.foldl (fun acc c => 10 * acc + (c.toNat - 48)) 0

/-- JS `Number(string)`, restricted to the decimal forms occurring in this
data set: optional sign, digits with an optional decimal point.  Exponents,
hex and `Infinity` spellings do not occur in the spreadsheet cells and are
not modelled.  Empty (or whitespace-only) input is `0`; anything else is
`NaN`, returned as `none`. -/
def jsNumber (s : List Char) : Option ℚ :=
  let t := trimChars s
  if t.isEmpty then some 0
  else
    let p : ℚ × List Char :=
      match t with
      | [] => (1, t)
      | c :: rest =>
          if c = '-' then (-1, rest) else if c = '+' then (1, rest) else (1, c :: rest)
    match splitOnChar '.' p.2 with
    | [a] =>
        if !a.isEmpty && a.all Char.isDigit then some (p.1 * digitsVal a) else none
    | [a, b] =>
        if (!a.isEmpty || !b.isEmpty) && a.all Char.isDigit && b.all Char.isDigit then
          some (p.1 * ((digitsVal a : ℚ) + (digitsVal b : ℚ) / 10 ^ b.length))
        else none
    | _ => none

/-- `parseMsCsToSeconds` of the VDOT builder (`makeData.js` lines 21-51):
`mm:ss` and `mm:ss:cc` (centiseconds), with Excel day-fraction and
decimal-minutes fallbacks for colon-free input; `none` models JS `null`. -/
def parseMsCsToSeconds (v : Option (List Char)) : Option ℚ :=
  match v with
  | none => none
  | some raw =>
      let s := trimChars raw
      if s.isEmpty then none
      else if s.contains ':' then
        let nums := ((splitOnChar ':' s).map trimChars).map jsNumber
        if nums.any (fun n => n.isNone) then none
        else
          match nums with
          | [some mm, some ss] => some (mm * 60 + ss)
          | [some mm, some ss, some cc] => some (mm * 60 + ss + cc / 100)
          | _ => none
      else
        match jsNumber s with
        | none => none
        | some x => if 0 < x ∧ x < 1 then some (x * 86400) else some (x * 60)

/-- `parseHmsToSeconds` of the VDOT builder (`makeData.js` lines 59-84):
`h:mm:ss` (and `mm:ss` for two parts), same colon-free fallbacks. -/
def parseHmsToSeconds (v : Option (List Char)) : Option ℚ :=
  match v with
  | none => none
  | some raw =>
      let s := trimChars raw
      if s.isEmpty then none
      else if s.contains ':' then
        let nums := ((splitOnChar ':' s).map trimChars).map jsNumber
        if nums.any (fun n => n.isNone) then none
        else
          match nums with
          | [some h, some m, some sec] => some (h * 3600 + m * 60 + sec)
          | [some m, some sec] => some (m * 60 + sec)
          | _ => none
      else
        match jsNumber s with
        | none => none
        | some x => if 0 < x ∧ x < 1 then some (x * 86400) else some (x * 60)

/-- `parseMsCsToSeconds` of the Pace Overview builder (`makeData.js` lines
160-183); its body is semantically identical to the VDOT variant. -/
def parseMsCsToSecondsOv (v : Option (List Char)) : Option ℚ :=
  match v with
  | none => none
  | some raw =>
      let s := trimChars raw
      if s.isEmpty then none
      else if s.contains ':' then
        let nums := ((splitOnChar ':' s).map trimChars).map jsNumber
        if nums.any (fun n => n.isNone) then none
        else
          match nums with
          | [some mm, some ss] => some (mm * 60 + ss)
          | [some mm, some ss, some cc] => some (mm * 60 + ss + cc / 100)
          | _ => none
      else
        match jsNumber s with
        | none => none
        | some x => if 0 < x ∧ x < 1 then some (x * 86400) else some (x * 60)

/-- `parseHmsToSeconds` of the Pace Overview builder (`makeData.js` lines
190-209); identical to the VDOT variant. -/
def parseHmsToSecondsOv (v : Option (List Char)) : Option ℚ :=
  match v with
  | none => none
  | some raw =>
      let s := trimChars raw
      if s.isEmpty then none
      else if s.contains ':' then
        let nums := ((splitOnChar ':' s).map trimChars).map jsNumber
        if nums.any (fun n => n.isNone) then none
        else
          match nums with
          | [some h, some m, some sec] => some (h * 3600 + m * 60 + sec)
          | [some m, some sec] => some (m * 60 + sec)
          | _ => none
      else
        match jsNumber s with
        | none => none
        | some x => if 0 < x ∧ x < 1 then some (x * 86400) else some (x * 60)

theorem parseMsCsOv_eq : parseMsCsToSecondsOv = parseMsCsToSeconds := rfl

/-- `whole` (`makeData.js` lines 86-89 and 211-214): `Math.round` into the
stored field, with `null` passing through. -/
def whole (sec : Option ℚ) : JVal ℚ :=
  match sec with
  | none => JVal.null
  | some s => JVal.num ((⌊s + 1 / 2⌋ : ℤ) : ℚ)

theorem dropWhile_eq_self_of_false {p : Char → Bool} :
    ∀ l : List Char, (∀ c ∈ l, p c = false) → l.dropWhile p = l := by
  intro l
  induction l with
  | nil => intro _; rfl
  | cons c rest ih =>
      intro h
      rw [List.dropWhile_cons, if_neg (by simp [h c (List.mem_cons_self _ _)])]

theorem trimChars_eq_self (l : List Char) (h : ∀ c ∈ l, isWS c = false) :
    trimChars l = l := by
  have h1 : l.dropWhile isWS = l := dropWhile_eq_self_of_false l h
  have h2 : l.reverse.dropWhile isWS = l.reverse :=
    dropWhile_eq_self_of_false l.reverse (fun c hc => h c (List.mem_reverse.mp hc))
  rw [trimChars, h1, h2, List.reverse_reverse]

theorem isWS_of_isDigit (c : Char) (h : c.isDigit = true) : isWS c = false := by
  simp only [isWS, Bool.or_eq_false_iff, beq_eq_false_iff_ne, ne_eq]
  refine ⟨⟨⟨?_, ?_⟩, ?_⟩, ?_⟩
  all_goals (rintro rfl; exact absurd h (by decide))

theorem isWS_colon : isWS ':' = false := by decide

theorem splitOnChar_cons (sep c : Char) (l : List Char) :
    splitOnChar sep (c :: l) =
      if c = sep then [] :: splitOnChar sep l
      else
        match splitOnChar sep l with
        | h :: t => (c :: h) :: t
        | [] => [[c]] := rfl

theorem splitOnChar_not_mem (sep : Char) :
    ∀ l : List Char, (∀ c ∈ l, c ≠ sep) → splitOnChar sep l = [l] := by
  intro l
  induction l with
  | nil => intro _; rfl
  | cons c rest ih =>
      intro h
      rw [splitOnChar_cons, if_neg (h c (List.mem_cons_self _ _)),
        ih (fun x hx => h x (List.mem_cons_of_mem _ hx))]

theorem splitOnChar_append (sep : Char) (a b : List Char)
    (ha : ∀ c ∈ a, c ≠ sep) :
    splitOnChar sep (a ++ sep :: b) = a :: splitOnChar sep b := by
  induction a with
  | nil => simp [splitOnChar_cons]
  | cons c a' ih =>
      have hc : c ≠ sep := ha c (List.mem_cons_self _ _)
      have ih' := ih (fun x hx => ha x (List.mem_cons_of_mem _ hx))
      rw [List.cons_append, splitOnChar_cons, if_neg hc, ih']

theorem jsNumber_digits (l : List Char) (hne : l ≠ [])
    (hd : ∀ c ∈ l, c.isDigit = true) : jsNumber l = some (digitsVal l : ℚ) := by
  have htrim : trimChars l = l :=
    trimChars_eq_self l (fun c hc => isWS_of_isDigit c (hd c hc))
  obtain ⟨c, rest, rfl⟩ : ∃ c rest, l = c :: rest := by
    cases l with
    | nil => exact absurd rfl hne
    | cons c rest => exact ⟨c, rest, rfl⟩
  have hcd := hd c (List.mem_cons_self _ _)
  have hcm : c ≠ '-' := by rintro rfl; exact absurd hcd (by decide)
  have hcp : c ≠ '+' := by rintro rfl; exact absurd hcd (by decide)
  have hnodot : ∀ x ∈ c :: rest, x ≠ '.' := fun x hx => by
    rintro rfl; exact absurd (hd _ hx) (by decide)
  have hall : (c :: rest).all Char.isDigit = true := List.all_eq_true.mpr hd
  simp only [jsNumber, htrim, List.isEmpty_cons, if_neg, Bool.false_eq_true,
    not_false_eq_true, if_neg hcm, if_neg hcp,
    splitOnChar_not_mem '.' (c :: rest) hnodot, hall]
  simp

theorem parseMsCs_two (a b : List Char) (hna : a ≠ []) (hnb : b ≠ [])
    (hda : ∀ c ∈ a, c.isDigit = true) (hdb : ∀ c ∈ b, c.isDigit = true) :
    parseMsCsToSeconds (some (a ++ ':' :: b))
      = some ((digitsVal a : ℚ) * 60 + digitsVal b) := by
  have hnows : ∀ c ∈ a ++ ':' :: b, isWS c = false := by
    intro c hc
    rcases List.mem_append.mp hc with h | h
    · exact isWS_of_isDigit c (hda c h)
    · rcases List.mem_cons.mp h with h | h
      · subst h; exact isWS_colon
      · exact isWS_of_isDigit c (hdb c h)
  have htrim : trimChars (a ++ ':' :: b) = a ++ ':' :: b :=
    trimChars_eq_self _ hnows
  have hcontains : (a ++ ':' :: b).contains ':' = true := by
    simp [List.contains]
  have hnocolon_a : ∀ c ∈ a, c ≠ ':' := fun c hc => by
    rintro rfl; exact absurd (hda _ hc) (by decide)
  have hnocolon_b : ∀ c ∈ b, c ≠ ':' := fun c hc => by
    rintro rfl; exact absurd (hdb _ hc) (by decide)
  have hsplit : splitOnChar ':' (a ++ ':' :: b) = [a, b] := by
    rw [splitOnChar_append ':' a (b) hnocolon_a, splitOnChar_not_mem ':' b hnocolon_b]
  have hta : trimChars a = a :=
    trimChars_eq_self a (fun c hc => isWS_of_isDigit c (hda c hc))
  have htb : trimChars b = b :=
    trimChars_eq_self b (fun c hc => isWS_of_isDigit c (hdb c hc))
  have hja := jsNumber_digits a hna hda
  have hjb := jsNumber_digits b hnb hdb
  have hempty : (a ++ ':' :: b).isEmpty = false := by
    cases a <;> rfl
  simp only [parseMsCsToSeconds, htrim, hempty, Bool.false_eq_true, if_false,
    hcontains, if_true, hsplit, List.map_cons, List.map_nil, hta, htb, hja, hjb]
  simp

theorem parseMsCs_three (a b c : List Char) (hna : a ≠ []) (hnb : b ≠ [])
    (hnc : c ≠ []) (hda : ∀ x ∈ a, x.isDigit = true)
    (hdb : ∀ x ∈ b, x.isDigit = true) (hdc : ∀ x ∈ c, x.isDigit = true) :
    parseMsCsToSeconds (some (a ++ ':' :: (b ++ ':' :: c)))
      = some ((digitsVal a : ℚ) * 60 + digitsVal b + (digitsVal c : ℚ) / 100) := by
  have hnows : ∀ x ∈ a ++ ':' :: (b ++ ':' :: c), isWS x = false := by
    intro x hx
    rcases List.mem_append.mp hx with h | h
    · exact isWS_of_isDigit x (hda x h)
    · rcases List.mem_cons.mp h with h | h
      · subst h; exact isWS_colon
      · rcases List.mem_append.mp h with h | h
        · exact isWS_of_isDigit x (hdb x h)
        · rcases List.mem_cons.mp h with h | h
          · subst h; exact isWS_colon
          · exact isWS_of_isDigit x (hdc x h)
  have htrim := trimChars_eq_self _ hnows
  have hcontains : (a ++ ':' :: (b ++ ':' :: c)).contains ':' = true := by
    simp [List.contains]
  have hnocolon_a : ∀ x ∈ a, x ≠ ':' := fun x hx => by
    rintro rfl; exact absurd (hda _ hx) (by decide)
  have hnocolon_b : ∀ x ∈ b, x ≠ ':' := fun x hx => by
    rintro rfl; exact absurd (hdb _ hx) (by decide)
  have hnocolon_c : ∀ x ∈ c, x ≠ ':' := fun x hx => by
    rintro rfl; exact absurd (hdc _ hx) (by decide)
  have hsplit : splitOnChar ':' (a ++ ':' :: (b ++ ':' :: c)) = [a, b, c] := by
    rw [splitOnChar_append ':' a _ hnocolon_a, splitOnChar_append ':' b c hnocolon_b,
      splitOnChar_not_mem ':' c hnocolon_c]
  have hta := trimChars_eq_self a (fun x hx => isWS_of_isDigit x (hda x hx))
  have htb := trimChars_eq_self b (fun x hx => isWS_of_isDigit x (hdb x hx))
  have htc := trimChars_eq_self c (fun x hx => isWS_of_isDigit x (hdc x hx))
  have hja := jsNumber_digits a hna hda
  have hjb := jsNumber_digits b hnb hdb
  have hjc := jsNumber_digits c hnc hdc
  have hempty : (a ++ ':' :: (b ++ ':' :: c)).isEmpty = false := by
    cases a <;> rfl
  simp only [parseMsCsToSeconds, htrim, hempty, Bool.false_eq_true, if_false,
    hcontains, if_true, hsplit, List.map_cons, List.map_nil, hta, htb, htc,
    hja, hjb, hjc]
  simp

/-- Claim C7: for every valid colon-separated time string (digit fields), the
build-time normalizer returns exactly `60*mm + ss` for two-part `mm:ss`
input and `60*mm + ss + cc/100` (before rounding) for three-part `mm:ss:cc`
input, in both builder variants. -/
theorem C7_normalizer_exact (a b c : List Char) (hna : a ≠ []) (hnb : b ≠ [])
    (hnc : c ≠ []) (hda : ∀ x ∈ a, x.isDigit = true)
    (hdb : ∀ x ∈ b, x.isDigit = true) (hdc : ∀ x ∈ c, x.isDigit = true) :
    (parseMsCsToSeconds (some (a ++ ':' :: b))
      = some (60 * (digitsVal a : ℚ) + digitsVal b)) ∧
    (parseMsCsToSecondsOv (some (a ++ ':' :: b))
      = some (60 * (digitsVal a : ℚ) + digitsVal b)) ∧
    (parseMsCsToSeconds (some (a ++ ':' :: (b ++ ':' :: c)))
      = some (60 * (digitsVal a : ℚ) + digitsVal b + (digitsVal c : ℚ) / 100)) ∧
    (parseMsCsToSecondsOv (some (a ++ ':' :: (b ++ ':' :: c)))
      = some (60 * (digitsVal a : ℚ) + digitsVal b + (digitsVal c : ℚ) / 100)) := by
  have h2 := parseMsCs_two a b hna hnb hda hdb
  have h3 := parseMsCs_three a b c hna hnb hnc hda hdb hdc
  rw [parseMsCsOv_eq]
  refine ⟨?_, ?_, ?_, ?_⟩ <;> (first
    | (rw [h2]; congr 1; ring)
    | (rw [h3]; congr 1; ring))

/-- Witness for `C7_normalizer_exact` on the string `18:05` (1085 s). -/
theorem C7_witness :
    (digitsVal "18".toList : ℚ) = 18 ∧ (digitsVal "05".toList : ℚ) = 5 ∧
    parseMsCsToSeconds (some ("18".toList ++ ':' :: "05".toList))
      = some (60 * (digitsVal "18".toList : ℚ) + digitsVal "05".toList) := by
  refine ⟨?_, ?_,
    (C7_normalizer_exact "18".toList "05".toList "30".toList (by decide) (by decide)
      (by decide) (by decide) (by decide) (by decide)).1⟩
  · rw [show digitsVal "18".toList = 18 from by decide]; norm_num
  · rw [show digitsVal "05".toList = 5 from by decide]; norm_num

theorem floor_nat_add_half (n : ℕ) : (⌊(n : ℚ) + 1 / 2⌋ : ℤ) = n := by
  rw [Int.floor_eq_iff]
  constructor <;> push_cast <;> norm_num

/-- Claim C8 (amended): neither normalization variant applies the claimed
defensive post-pass: for every valid `mm:ss` input whose value exceeds
2000 seconds, both variants return the value itself (no division by 100)
and it is rounded and stored unchanged. -/
theorem C8_no_defensive_rescale (a b : List Char) (hna : a ≠ []) (hnb : b ≠ [])
    (hda : ∀ x ∈ a, x.isDigit = true) (hdb : ∀ x ∈ b, x.isDigit = true)
    (_hbig : 2000 < 60 * (digitsVal a : ℚ) + digitsVal b) :
    parseMsCsToSeconds (some (a ++ ':' :: b))
      = some (60 * (digitsVal a : ℚ) + digitsVal b) ∧
    parseMsCsToSecondsOv (some (a ++ ':' :: b))
      = some (60 * (digitsVal a : ℚ) + digitsVal b) ∧
    whole (parseMsCsToSeconds (some (a ++ ':' :: b)))
      = JVal.num ((60 * digitsVal a + digitsVal b : ℕ) : ℚ) := by
  have h2 := parseMsCs_two a b hna hnb hda hdb
  have hcast : (digitsVal a : ℚ) * 60 + digitsVal b
      = ((60 * digitsVal a + digitsVal b : ℕ) : ℚ) := by push_cast; ring
  refine ⟨by rw [h2]; congr 1; ring, by rw [parseMsCsOv_eq, h2]; congr 1; ring, ?_⟩
  rw [h2, whole, hcast, floor_nat_add_half]
  simp

/-- Claim C8, counterexample: the input `40:00` normalizes to 2400 s, which
exceeds the claimed 2000 s plausibility threshold, yet NEITHER builder
variant divides it by 100 — it is stored as 2400, not 24. -/
theorem C8_counterexample :
    parseMsCsToSeconds (some "40:00".toList) = some 2400 ∧
    parseMsCsToSecondsOv (some "40:00".toList) = some 2400 ∧
    ¬ (2400 : ℚ) ≤ 2000 ∧
    whole (parseMsCsToSeconds (some "40:00".toList)) = JVal.num 2400 := by
  have hform : "40:00".toList = "40".toList ++ ':' :: "00".toList := by decide
  have h2 := parseMsCs_two "40".toList "00".toList (by decide) (by decide)
    (by decide) (by decide)
  have hva : digitsVal "40".toList = 40 := by decide
  have hvb : digitsVal "00".toList = 0 := by decide
  have hval : parseMsCsToSeconds (some "40:00".toList) = some 2400 := by
    rw [hform, h2, hva, hvb]; norm_num
  refine ⟨hval, by rw [parseMsCsOv_eq]; exact hval, by norm_num, ?_⟩
  rw [hval, whole]
  norm_num

/-- Witness for `C8_no_defensive_rescale` on the string `40:00` (2400 s). -/
theorem C8_witness :
    parseMsCsToSeconds (some ("40".toList ++ ':' :: "00".toList))
      = some (60 * (digitsVal "40".toList : ℚ) + digitsVal "00".toList) ∧
    whole (parseMsCsToSeconds (some ("40".toList ++ ':' :: "00".toList)))
      = JVal.num ((60 * digitsVal "40".toList + digitsVal "00".toList : ℕ) : ℚ) := by
  have h := C8_no_defensive_rescale "40".toList "00".toList (by decide) (by decide)
    (by decide) (by decide)
    (by rw [show digitsVal "40".toList = 40 from by decide,
          show digitsVal "00".toList = 0 from by decide]; norm_num)
  exact ⟨h.1, h.2.2⟩

/-- JS `String(x)` for a possibly-missing spreadsheet cell: a missing cell
(`undefined`) prints as the string `undefined`, which parses to `NaN`. -/
def strOfCell (c : Option (List Char)) : List Char := c.getD "undefined".toList

/-- JS `Array.prototype.map` with the element index (`(r, i) => ...`). -/
def mapWithIndex (f : ℕ → List (List Char) → Option β) :
    ℕ → List (List (List Char)) → List (Option β)
  | _, [] => []
  | i, r :: rest => f i r :: mapWithIndex f (i + 1) rest

/-- The row prefilter of the VDOT builder (`makeData.js` lines 9-12): keep
rows whose column 11 parses to a number greater than zero. -/
def vdotPrefilter (r : List (List Char)) : Bool :=
  match jsNumber (trimChars ((r.get? 11).getD [])) with
  | some v => decide (0 < v)
  | none => false

/-- The row mapper of the VDOT builder (`makeData.js` lines 92-135):
`null` (here `none`) when the pace index is not finite, otherwise the row
with the fixed VDOT column layout. -/
def buildRowVDOT (i : ℕ) (r : List (List Char)) : Option (PaceRow ℚ) :=
  match jsNumber (trimChars (strOfCell (r.get? 11))) with
  | none => none
  | some paceIndex =>
      some { id := i
             paceIndex := JVal.num paceIndex
             pred := { m800 := whole (parseMsCsToSeconds (r.get? 2))
                       mile := whole (parseMsCsToSeconds (r.get? 3))
                       twoMile := whole (parseMsCsToSeconds (r.get? 4))
                       k5 := whole (parseMsCsToSeconds (r.get? 5))
                       half := whole (parseHmsToSeconds (r.get? 6))
                       marathon := whole (parseHmsToSeconds (r.get? 7)) }
             pace := { mile := whole (parseMsCsToSeconds (r.get? 8))
                       twoMile := whole (parseMsCsToSeconds (r.get? 9))
                       k5 := whole (parseMsCsToSeconds (r.get? 10)) }
             cv := { m100 := whole (parseMsCsToSeconds (r.get? 32))
                     m400 := whole (parseMsCsToSeconds (r.get? 31))
                     m800 := whole (parseMsCsToSeconds (r.get? 30))
                     m1000 := whole (parseMsCsToSeconds (r.get? 29))
                     m1200 := whole (parseMsCsToSeconds (r.get? 28)) }
             speed2m := { m100 := whole (parseMsCsToSeconds (r.get? 37))
                          m200 := whole (parseMsCsToSeconds (r.get? 36))
                          m300 := whole (parseMsCsToSeconds (r.get? 35))
                          m400 := whole (parseMsCsToSeconds (r.get? 34))
                          m600 := whole (parseMsCsToSeconds (r.get? 33)) } }

/-- The parsed (pre-gate) rows of the VDOT builder: prefilter, map, and
drop the `null` map results (`.filter(Boolean)`). -/
def vdotParsedRows (all : List (List (List Char))) : List (PaceRow ℚ) :=
  (mapWithIndex buildRowVDOT 0 (all.filter vdotPrefilter)).filterMap id

/-- The emitted VDOT table (`makeData.js` lines 91-138): parsed rows passed
through the 5k data-quality gate. -/
def vdotData (all : List (List (List Char))) : List (PaceRow ℚ) :=
  (vdotParsedRows all).filter fun x => x.pred.k5.isFinite && x.pace.k5.isFinite

/-- The row filter of the Pace Overview builder (`makeData.js` line 152):
after skipping three header rows, keep rows whose column 0 is non-empty. -/
def overviewRowFilter (r : List (List Char)) : Bool :=
  !(trimChars ((r.get? 0).getD [])).isEmpty

/-- The row mapper of the Pace Overview builder (`makeData.js` lines
239-323), with its own column layout, explicit threshold pace, stored 5k
repeats, and the 100 m critical-velocity repeat derived as `cv400 / 4`. -/
def buildRowOverview (i : ℕ) (r : List (List Char)) : Option (PaceRowX ℚ) :=
  match jsNumber (trimChars (strOfCell (r.get? 0))) with
  | none => none
  | some paceIndex =>
      let cv400 := whole (parseMsCsToSecondsOv (r.get? 21))
      some { id := i
             paceIndex := JVal.num paceIndex
             pred := { m800 := whole (parseMsCsToSecondsOv (r.get? 1))
                       mile := whole (parseMsCsToSecondsOv (r.get? 2))
                       twoMile := whole (parseMsCsToSecondsOv (r.get? 3))
                       k5 := whole (parseMsCsToSecondsOv (r.get? 4))
                       half := whole (parseHmsToSecondsOv (r.get? 5))
                       marathon := whole (parseHmsToSecondsOv (r.get? 6)) }
             pace := { mile := whole (parseMsCsToSecondsOv (r.get? 7))
                       twoMile := whole (parseMsCsToSecondsOv (r.get? 8))
                       k5 := whole (parseMsCsToSecondsOv (r.get? 9)) }
             thresholdPace := whole (parseMsCsToSecondsOv (r.get? 19))
             fivekRepeats := some
               { m1600 := whole (parseMsCsToSecondsOv (r.get? 26))
                 m1200 := whole (parseMsCsToSecondsOv (r.get? 27))
                 m1000 := whole (parseMsCsToSecondsOv (r.get? 28))
                 m800 := whole (parseMsCsToSecondsOv (r.get? 29))
                 m400 := whole (parseMsCsToSecondsOv (r.get? 30))
                 m100 := whole (parseMsCsToSecondsOv (r.get? 31)) }
             cv := { m100 :=
                       match cv400 with
                       | JVal.num x => JVal.num ((⌊x / 4 + 1 / 2⌋ : ℤ) : ℚ)
                       | _ => JVal.null
                     m400 := cv400
                     m800 := whole (parseMsCsToSecondsOv (r.get? 22))
                     m1000 := whole (parseMsCsToSecondsOv (r.get? 23))
                     m1200 := whole (parseMsCsToSecondsOv (r.get? 24))
                     m1600 := whole (parseMsCsToSecondsOv (r.get? 25)) }
             speed2m := { m600 := whole (parseMsCsToSecondsOv (r.get? 32))
                          m400 := whole (parseMsCsToSecondsOv (r.get? 33))
                          m300 := whole (parseMsCsToSecondsOv (r.get? 34))
                          m200 := whole (parseMsCsToSecondsOv (r.get? 35))
                          m100 := whole (parseMsCsToSecondsOv (r.get? 36)) } }

/-- The parsed (pre-gate) rows of the Pace Overview builder. -/
def overviewParsedRows (all : List (List (List Char))) : List (PaceRowX ℚ) :=
  (mapWithIndex buildRowOverview 0 ((all.drop 3).filter overviewRowFilter)).filterMap id

/-- The emitted Pace Overview table (`makeData.js` lines 238-326): parsed
rows filtered by the pace-index range 30-73 — NOT by any 5k gate. -/
def overviewData (all : List (List (List Char))) : List (PaceRowX ℚ) :=
  (overviewParsedRows all).filter fun x =>
    JVal.jle (JVal.num 30) x.paceIndex && JVal.jle x.paceIndex (JVal.num 73)

/-- Claim C2 (amended): the VDOT builder retains a parsed row exactly when
its 5k prediction and 5k race pace are finite; the Pace Overview builder
instead retains a parsed row exactly when its pace index lies in 30-73 and
applies no 5k gate at all. -/
theorem C2_retention_amended :
    (∀ (all : List (List (List Char))) (x : PaceRow ℚ),
      x ∈ vdotData all ↔ x ∈ vdotParsedRows all ∧
        x.pred.k5.isFinite = true ∧ x.pace.k5.isFinite = true) ∧
    (∀ (all : List (List (List Char))) (x : PaceRowX ℚ),
      x ∈ overviewData all ↔ x ∈ overviewParsedRows all ∧
        JVal.jle (JVal.num 30) x.paceIndex = true ∧
        JVal.jle x.paceIndex (JVal.num 73) = true) := by
  constructor
  · intro all x
    simp [vdotData, List.mem_filter, Bool.and_eq_true, and_assoc]
  · intro all x
    simp [overviewData, List.mem_filter, Bool.and_eq_true, and_assoc]

/-- Claim C2, counterexample: a Pace Overview input row with pace index 50
and NO 5k prediction at all (column 4 missing, parsed to `null`) is
retained in the emitted table — refuting the claim that the 5k-presence
gate is applied in every builder variant. -/
theorem C2_counterexample :
    (overviewData [[], [], [], ["50".toList]]).map
      (fun x => (x.pred.k5, x.paceIndex)) = [(JVal.null, JVal.num 50)] := by
  have htrim : trimChars "50".toList = "50".toList := by decide
  have hjs : jsNumber (trimChars (strOfCell (([ "50".toList ] : List (List Char)).get? 0)))
      = some 50 := by
    have h1 : strOfCell (([ "50".toList ] : List (List Char)).get? 0) = "50".toList := rfl
    rw [h1, htrim, jsNumber_digits "50".toList (by decide) (by decide),
      show digitsVal "50".toList = 50 from by decide]
    norm_num
  have hfilter : ([[ ], [ ], [ ], ["50".toList]] : List (List (List Char))).drop 3
      = [["50".toList]] := rfl
  simp only [overviewData, overviewParsedRows, hfilter]
  rw [show (([["50".toList]] : List (List (List Char))).filter overviewRowFilter)
      = [["50".toList]] from by decide]
  simp only [mapWithIndex, buildRowOverview, hjs]
  norm_num [JVal.jle, JVal.coerce, whole, parseMsCsToSecondsOv, parseHmsToSecondsOv,
    List.filterMap_cons, List.filter_cons]
